import Mathlib

/-
Verification of the NeighborSearchRules core of mlpack 1.0.8
(methods/neighbor_search/nearest_neighbor_rules_impl.hpp).

The C++ code is a class template over a SortPolicy, a MetricType and a
TreeType.  The shallow embedding below keeps that parameterisation:

  * distances are rationals (the C++ uses double; none of the claims is
    about rounding, and DBL_MAX is embedded as its exact rational value);
  * the SortPolicy template parameter becomes an explicit record of the
    operations the rules call;
  * the metric becomes an explicit function from column indices to the
    distance between the corresponding query and reference columns (the
    two point sets are fixed for the lifetime of a NeighborSearchRules
    object, so indexing by column is faithful);
  * the mutable members of NeighborSearchRules (the neighbors and
    distances output matrices, stored column-wise, and the one-slot
    base-case memo) become the record Rules, threaded explicitly;
  * tree nodes live in an arena indexed by natural numbers, with the
    per-node statistic block (first bound, second bound, bound, last
    distance, last distance node) in a separate mutable map, mirroring
    the design note that LastDistanceNode is a non-owning handle;
  * the instrumentation field evalCount counts metric evaluations, so
    that claims about avoided recomputation are observable.
-/

set_option maxRecDepth 2000

namespace NNRules

/-- The prune sentinel of the C++ code is DBL_MAX; this is the exact
rational value of the IEEE-754 double DBL_MAX, written as a numeral so
that it evaluates inside the kernel (see DBL_MAX_eq below for the
closed form 2 ^ 1024 - 2 ^ 971). -/
def DBL_MAX : ℚ := 179769313486231570814527423731704356798070567525844996598917476803157260780028538760589558632766878171540458953514382464234321326889464182768467546703537516986049910576551282076245490090389328944075868508455133942304583236903222948165808559332123348274797826204144723168738177180919299881250404026184124858368

/-- The SortPolicy template parameter: the operations that
NeighborSearchRules invokes on it (nearest_neighbor_rules_impl.hpp uses
IsBetter, CombineBest, CombineWorst, SortDistance, BestDistance,
WorstDistance). -/
structure SortPolicy where
  IsBetter : ℚ → ℚ → Bool
  WorstDistance : ℚ
  BestDistance : ℚ
  CombineBest : ℚ → ℚ → ℚ
  CombineWorst : ℚ → ℚ → ℚ
  SortDistance : List ℚ → ℚ → Option ℕ

/-- a is at least as tight as b under the policy ordering (b is not
strictly better than a). -/
def Leq (P : SortPolicy) (a b : ℚ) : Prop := P.IsBetter b a = false

/-- The C++ idiom IsBetter(a, b) ? a : b. -/
def betterOf (P : SortPolicy) (a b : ℚ) : ℚ := if P.IsBetter a b then a else b

/-- The C++ idiom IsBetter(a, b) ? b : a (keep the worse of the two). -/
def worseOf (P : SortPolicy) (a b : ℚ) : ℚ := if P.IsBetter a b then b else a

/-- Lawfulness of a sort policy required by the order-theoretic claims:
IsBetter is asymmetric, its negation is transitive, and CombineWorst is
monotone in its first argument.  The nearest- and furthest-neighbor
policies both satisfy these. -/
structure Lawful (P : SortPolicy) : Prop where
  asymm : ∀ a b, P.IsBetter a b = true → P.IsBetter b a = false
  leqTrans : ∀ a b c, Leq P a b → Leq P b c → Leq P a c
  cwMono : ∀ a b c, Leq P a b → Leq P (P.CombineWorst a c) (P.CombineWorst b c)

/-- Modelled from the spec: the sort policy's search procedure
SortDistance(candidateList, distance) (section 6); it returns the
insertion position or none: the first position whose entry the new
distance beats under IsBetter, and none when the new distance beats no
entry (in particular not the last, worst one).  The concrete policy
implementations are outside the sources provided. -/
def sortDistanceFirst (better : ℚ → ℚ → Bool) : List ℚ → ℚ → Option ℕ
  | [], _ => none
  | a :: l, d => if better d a then some 0 else (sortDistanceFirst better l d).map (· + 1)

/-- Modelled from the spec: the nearest-neighbor sort policy (sections 3
and 6): better means smaller distance, the worst possible distance is
DBL_MAX, the best is 0, CombineBest subtracts the node radius from a
base-case distance (a triangle-inequality lower bound), CombineWorst
adds a widening term, and SortDistance searches for the first beaten
position. -/
def nnPolicy : SortPolicy where
  IsBetter a b := decide (a < b)
  WorstDistance := DBL_MAX
  BestDistance := 0
  CombineBest a b := a - b
  CombineWorst a b := a + b
  SortDistance l d := sortDistanceFirst (fun a b => decide (a < b)) l d

/-- Pointwise effect of the memmove in InsertNeighbor on one fixed-width
column: entries before position n stay, the new entry x sits at
position n, entries from n up to the second-to-last slide down one
slot, and the last entry is discarded. -/
def insertShift {α : Type} (x : α) : ℕ → List α → List α
  | _, [] => []
  | 0, a :: l => x :: (a :: l).dropLast
  | n + 1, a :: l => a :: insertShift x n l

/-- The mutable state of a NeighborSearchRules object: k is
distances.n_rows, sameSet records whether the query set and reference
set are the identical backing matrix, distances and neighbors hold the
output matrices column by column, and the three last* fields are the
one-slot base-case memo.  evalCount instruments the number of
metric.Evaluate calls. -/
structure Rules where
  k : ℕ
  sameSet : Bool
  distances : ℕ → List ℚ
  neighbors : ℕ → List ℕ
  lastQueryIndex : ℕ
  lastReferenceIndex : ℕ
  lastBaseCase : ℚ
  evalCount : ℕ

/-- distances(distances.n_rows - 1, i): the current worst accepted
candidate distance of query point i, the pruning threshold. -/
def thresholdFun (st : Rules) : ℕ → ℚ := fun i => (st.distances i).getD (st.k - 1) 0

/-- InsertNeighbor(queryIndex, pos, neighbor, distance): shift the tail
of the query's two columns down one slot and write the new pair at pos
(lines 366-388 of the source). -/
def InsertNeighbor (st : Rules) (q pos r : ℕ) (d : ℚ) : Rules :=
  { st with
    distances := fun j => if j = q then insertShift d pos (st.distances j) else st.distances j,
    neighbors := fun j => if j = q then insertShift r pos (st.neighbors j) else st.neighbors j }

/-- The body of BaseCase past the self-match elision and the one-slot
memo check: evaluate the metric, ask SortDistance for an insertion
position, insert when one is returned, and overwrite the memo
unconditionally (lines 61-78 of the source). -/
def baseCaseRecompute (metric : ℕ → ℕ → ℚ) (P : SortPolicy) (st : Rules) (q r : ℕ) :
    ℚ × Rules :=
  let distance := metric q r
  let st1 := { st with evalCount := st.evalCount + 1 }
  let st2 :=
    match P.SortDistance (st1.distances q) distance with
    | some pos => InsertNeighbor st1 q pos r distance
    | none => st1
  (distance, { st2 with lastQueryIndex := q, lastReferenceIndex := r, lastBaseCase := distance })

/-- BaseCase(queryIndex, referenceIndex), lines 47-79 of the source:
self-match elision, then the one-slot memo, then the recomputation
path. -/
def BaseCase (metric : ℕ → ℕ → ℚ) (P : SortPolicy) (st : Rules) (q r : ℕ) : ℚ × Rules :=
  if st.sameSet = true ∧ q = r then (0, st)
  else if st.lastQueryIndex = q ∧ st.lastReferenceIndex = r then (st.lastBaseCase, st)
  else baseCaseRecompute metric P st q r

/-- Fold a sequence of BaseCase calls, keeping only the state. -/
def runBaseCases (metric : ℕ → ℕ → ℚ) (P : SortPolicy) (st : Rules) :
    List (ℕ × ℕ) → Rules
  | [] => st
  | p :: ps => runBaseCases metric P (BaseCase metric P st p.1 p.2).2 ps

/-- The two tree::TreeTraits flags the rules branch on. -/
structure Traits where
  FirstPointIsCentroid : Bool
  HasSelfChildren : Bool

/-- The slice of a reference tree node that the point-to-node Score
reads: Point(0), FurthestDescendantDistance(), the node statistic's
LastDistance(), and, when the parent is not null, the parent's Point(0)
together with the parent statistic's LastDistance(). -/
structure PNode where
  point0 : ℕ
  fdd : ℚ
  lastDistance : ℚ
  parentInfo : Option (ℕ × ℚ)

/-- Score(queryIndex, referenceNode), lines 81-119 of the source.  The
C++ declares double baseCase and assigns it only under the
HasSelfChildren trait; when FirstPointIsCentroid holds but
HasSelfChildren does not, the value combined at line 106 is the
indeterminate content of the uninitialized local, embedded here as the
extra argument junk.  bptn stands for the policy's static
BestPointToNodeDistance on the non-centroid branch. -/
def ScorePointNode (T : Traits) (metric : ℕ → ℕ → ℚ) (P : SortPolicy)
    (bptn : ℕ → PNode → ℚ) (st : Rules) (q : ℕ) (n : PNode) (junk : ℚ) :
    ℚ × Rules × PNode :=
  let dsn :=
    if T.FirstPointIsCentroid then
      if T.HasSelfChildren then
        let bcSt :=
          match n.parentInfo with
          | some pi =>
              if n.point0 = pi.1 then (pi.2, st)
              else BaseCase metric P st q n.point0
          | none => BaseCase metric P st q n.point0
        (P.CombineBest bcSt.1 n.fdd, bcSt.2, { n with lastDistance := bcSt.1 })
      else
        (P.CombineBest junk n.fdd, st, n)
    else
      (bptn q n, st, n)
  let bestDistance := (dsn.2.1.distances q).getD (dsn.2.1.k - 1) 0
  (if P.IsBetter dsn.1 bestDistance then dsn.1 else DBL_MAX, dsn.2.1, dsn.2.2)

/-- Rescore(queryIndex, referenceNode, oldScore), lines 121-135 of the
source: keep the sentinel, otherwise recheck oldScore against the
query's current threshold.  The reference node argument is unused in
the C++ as well. -/
def RescorePoint (P : SortPolicy) (st : Rules) (q : ℕ) (oldScore : ℚ) : ℚ :=
  if oldScore = DBL_MAX then oldScore
  else if P.IsBetter oldScore ((st.distances q).getD (st.k - 1) 0) then oldScore
  else DBL_MAX

/-- The per-node statistic block (NeighborSearchStat): the two cached
bounds, the combined bound, and the memoized last base case with a
non-owning handle to the node it was computed against. -/
structure Stat where
  firstBound : ℚ
  secondBound : ℚ
  bound : ℚ
  lastDistance : ℚ
  lastDistanceNode : Option ℕ

/-- The immutable shape of a built tree, nodes named by arena indices:
parent links, child lists, the indices of the points owned by each
node, and each node's furthest descendant distance. -/
structure Arena where
  parent : ℕ → Option ℕ
  children : ℕ → List ℕ
  points : ℕ → List ℕ
  fdd : ℕ → ℚ

/-- Point(0) of a node. -/
def point0 (A : Arena) (v : ℕ) : ℕ := (A.points v).headD 0

/-- The three values CalculateBound stores: interA (the new first
bound), interC (the new second bound) and the combined bound, computed
exactly as in lines 252-356 of the source: a single pass over the owned
points accumulating the worst and best current candidate distances, a
single pass over the children accumulating the worst child first bound
and the best descendant-distance-adjusted child second bound, then the
five bounds combined pairwise through IsBetter. -/
def calcTriple (A : Arena) (P : SortPolicy) (thr : ℕ → ℚ) (stats : ℕ → Stat) (v : ℕ) :
    ℚ × ℚ × ℚ :=
  let pw := (A.points v).foldl
    (fun wb i => (worseOf P wb.1 (thr i), betterOf P (thr i) wb.2))
    (P.BestDistance, P.WorstDistance)
  let cw := (A.children v).foldl
    (fun wb c =>
      (worseOf P wb.1 (stats c).firstBound,
       betterOf P (P.CombineWorst (stats c).secondBound (2 * (A.fdd v - A.fdd c))) wb.2))
    (P.BestDistance, P.WorstDistance)
  let firstB := worseOf P pw.1 cw.1
  let secondB := P.CombineWorst pw.2 (2 * A.fdd v)
  let fourthB :=
    match A.parent v with
    | some p => (stats p).firstBound
    | none => P.WorstDistance
  let fifthB :=
    match A.parent v with
    | some p => (stats p).secondBound
    | none => P.WorstDistance
  let interA := betterOf P firstB fourthB
  let interB := betterOf P cw.2 secondB
  let interC := betterOf P interB fifthB
  (interA, interC, betterOf P interA interC)

/-- CalculateBound(queryNode), lines 252-356 of the source: compute the
combined quantities, store first bound, second bound and bound onto the
node's statistic, and return the stored bound. -/
def CalculateBound (A : Arena) (P : SortPolicy) (thr : ℕ → ℚ) (stats : ℕ → Stat) (v : ℕ) :
    ℚ × (ℕ → Stat) :=
  let t := calcTriple A P thr stats v
  (t.2.2, fun n =>
    if n = v then { stats n with firstBound := t.1, secondBound := t.2.1, bound := t.2.2 }
    else stats n)

/-- Worst element of a list of distances under the policy, accumulated
from BestDistance exactly as the loops of CalculateBound do. -/
def worstList (P : SortPolicy) (l : List ℚ) : ℚ := l.foldl (worseOf P) P.BestDistance

/-- Best element of a list of distances under the policy, accumulated
from WorstDistance exactly as the loops of CalculateBound do. -/
def bestList (P : SortPolicy) (l : List ℚ) : ℚ :=
  l.foldl (fun acc d => betterOf P d acc) P.WorstDistance

/-- The five quantities and the combination of section 4.4 of the spec,
read literally: quantity (1) takes the worst of the owned points'
current candidate distances and of the children's cached bound values
(the combined bound, not the first bound); (2) widens the best owned
candidate distance by twice the node's furthest descendant distance;
(3) adjusts each child's cached second bound by twice the descendant
distance difference and takes the best; (4) and (5) are the parent's
first and second bounds, the worst possible distance when there is no
parent; they are combined as first = best(1,4),
intermediate = best(3,2), second = best(intermediate,5),
bound = best(first, second), all three are stored, and the bound is
returned. -/
def calcBoundSpecLiteral (A : Arena) (P : SortPolicy) (thr : ℕ → ℚ) (stats : ℕ → Stat)
    (v : ℕ) : ℚ × (ℕ → Stat) :=
  let q1 := worseOf P (worstList P ((A.points v).map thr))
    (worstList P ((A.children v).map (fun c => (stats c).bound)))
  let q2 := P.CombineWorst (bestList P ((A.points v).map thr)) (2 * A.fdd v)
  let q3 := bestList P ((A.children v).map
    (fun c => P.CombineWorst (stats c).secondBound (2 * (A.fdd v - A.fdd c))))
  let q4 :=
    match A.parent v with
    | some p => (stats p).firstBound
    | none => P.WorstDistance
  let q5 :=
    match A.parent v with
    | some p => (stats p).secondBound
    | none => P.WorstDistance
  let firstB := betterOf P q1 q4
  let inter := betterOf P q3 q2
  let secondB := betterOf P inter q5
  let bd := betterOf P firstB secondB
  (bd, fun n =>
    if n = v then { stats n with firstBound := firstB, secondBound := secondB, bound := bd }
    else stats n)

/-- The five quantities of section 4.4 amended to match the code: the
child contribution to quantity (1) is each child's cached first bound
rather than its combined bound.  Everything else is as in
calcBoundSpecLiteral. -/
def calcBoundSpecAmended (A : Arena) (P : SortPolicy) (thr : ℕ → ℚ) (stats : ℕ → Stat)
    (v : ℕ) : ℚ × (ℕ → Stat) :=
  let q1 := worseOf P (worstList P ((A.points v).map thr))
    (worstList P ((A.children v).map (fun c => (stats c).firstBound)))
  let q2 := P.CombineWorst (bestList P ((A.points v).map thr)) (2 * A.fdd v)
  let q3 := bestList P ((A.children v).map
    (fun c => P.CombineWorst (stats c).secondBound (2 * (A.fdd v - A.fdd c))))
  let q4 :=
    match A.parent v with
    | some p => (stats p).firstBound
    | none => P.WorstDistance
  let q5 :=
    match A.parent v with
    | some p => (stats p).secondBound
    | none => P.WorstDistance
  let firstB := betterOf P q1 q4
  let inter := betterOf P q3 q2
  let secondB := betterOf P inter q5
  let bd := betterOf P firstB secondB
  (bd, fun n =>
    if n = v then { stats n with firstBound := firstB, secondBound := secondB, bound := bd }
    else stats n)

/-- The four cached-base-case lookups of the node-to-node Score, lines
148-198 of the source, run in program order: the outer value none means
the C++ dereferences a null LastDistanceNode (branches three and four
perform lastParentRef->Point(0) with no null check); some none means no
cache applied (alreadyDone stays false); some (some bc) means the last
matching branch left bc in baseCase. -/
def nodeBaseCase (A : Arena) (stats : ℕ → Stat) (qn rn : ℕ) : Option (Option ℚ) :=
  let s1 : Option ℚ :=
    match (stats qn).lastDistanceNode with
    | some lr => if point0 A rn = point0 A lr then some (stats qn).lastDistance else none
    | none => none
  let s2 : Option ℚ :=
    match (stats rn).lastDistanceNode with
    | some lq => if point0 A qn = point0 A lq then some (stats rn).lastDistance else s1
    | none => s1
  let s3 : Option (Option ℚ) :=
    match A.parent qn with
    | some p =>
        if point0 A p = point0 A qn then
          match (stats p).lastDistanceNode with
          | some lpr =>
              some (if point0 A lpr = point0 A rn then some (stats p).lastDistance else s2)
          | none => none
        else some s2
    | none => some s2
  match s3 with
  | none => none
  | some s3v =>
      match A.parent rn with
      | some p =>
          if point0 A p = point0 A rn then
            match (stats p).lastDistanceNode with
            | some lpr =>
                some (if point0 A lpr = point0 A qn then some (stats p).lastDistance else s3v)
            | none => none
          else some s3v
      | none => some s3v

/-- Score(queryNode, referenceNode), lines 137-233 of the source.  The
result is none when the C++ dereferences a null cached node pointer
(see nodeBaseCase); otherwise it carries the returned score, the bound
CalculateBound computed and compared against at line 230 (exposed for
the statements below), the updated rules state and the updated
statistics.  On a cache hit the rules memo is overwritten with the
cached value (lines 207-211); the mutual memoization of lines 219-222
writes the reference node after the query node, so on a self-compare
the reference write is the one that remains.  bntn stands for the
policy's static BestNodeToNodeDistance on the non-centroid branch. -/
def ScoreNodes (T : Traits) (metric : ℕ → ℕ → ℚ) (P : SortPolicy)
    (bntn : ℕ → ℕ → ℚ) (A : Arena) (st : Rules) (stats : ℕ → Stat)
    (qn rn : ℕ) : Option (ℚ × ℚ × Rules × (ℕ → Stat)) :=
  if T.FirstPointIsCentroid then
    match nodeBaseCase A stats qn rn with
    | none => none
    | some cached =>
        let bcSt : ℚ × Rules :=
          match cached with
          | some bc =>
              (bc, { st with lastQueryIndex := point0 A qn,
                             lastReferenceIndex := point0 A rn,
                             lastBaseCase := bc })
          | none => BaseCase metric P st (point0 A qn) (point0 A rn)
        let distance := P.CombineBest bcSt.1 (A.fdd qn + A.fdd rn)
        let stats1 : ℕ → Stat := fun v =>
          if v = rn then { stats v with lastDistanceNode := some qn, lastDistance := bcSt.1 }
          else if v = qn then { stats v with lastDistanceNode := some rn, lastDistance := bcSt.1 }
          else stats v
        let pr := CalculateBound A P (thresholdFun bcSt.2) stats1 qn
        some (if P.IsBetter distance pr.1 then distance else DBL_MAX, pr.1, bcSt.2, pr.2)
  else
    let distance := bntn qn rn
    let pr := CalculateBound A P (thresholdFun st) stats qn
    some (if P.IsBetter distance pr.1 then distance else DBL_MAX, pr.1, st, pr.2)

/-- Rescore(queryNode, referenceNode, oldScore), lines 235-248 of the
source: keep the sentinel without touching the statistics, otherwise
recompute the query node's bound (updating its statistic) and recheck
oldScore against it. -/
def RescoreNode (A : Arena) (P : SortPolicy) (st : Rules) (stats : ℕ → Stat)
    (qn : ℕ) (oldScore : ℚ) : ℚ × (ℕ → Stat) :=
  if oldScore = DBL_MAX then (oldScore, stats)
  else
    let pr := CalculateBound A P (thresholdFun st) stats qn
    (if P.IsBetter oldScore pr.1 then oldScore else DBL_MAX, pr.2)

/-- A candidate-list column is sorted when no entry is strictly better
than an entry before it. -/
def sortedList (P : SortPolicy) (l : List ℚ) : Prop :=
  List.Chain' (fun a b => P.IsBetter b a = false) l

/-- Componentwise tightening of the three stored bounds of a node
statistic. -/
def statLeq (P : SortPolicy) (s t : Stat) : Prop :=
  Leq P s.firstBound t.firstBound ∧ Leq P s.secondBound t.secondBound ∧
    Leq P s.bound t.bound

/-- The statistic of a freshly reset node: both cached bounds and the
combined bound at the policy's worst possible distance, no cached base
case. -/
def worstStat (P : SortPolicy) : Stat :=
  { firstBound := P.WorstDistance, secondBound := P.WorstDistance,
    bound := P.WorstDistance, lastDistance := 0, lastDistanceNode := none }

/-- The state a bound-update sequence acts on: the per-query pruning
thresholds (last candidate-list entries) and the per-node statistics. -/
structure SState where
  thr : ℕ → ℚ
  stats : ℕ → Stat

/-- One event visible to CalculateBound during a search: either the
candidate lists change (base cases tighten some thresholds), or
CalculateBound runs on some query node and stores its bounds. -/
inductive SearchStep where
  | tighten : (ℕ → ℚ) → SearchStep
  | updateBound : ℕ → SearchStep

/-- Apply one search step. -/
def applyStep (A : Arena) (P : SortPolicy) (s : SState) : SearchStep → SState
  | .tighten f => ⟨f, s.stats⟩
  | .updateBound v => ⟨s.thr, (CalculateBound A P s.thr s.stats v).2⟩

/-- Apply a sequence of search steps. -/
def runSteps (A : Arena) (P : SortPolicy) (s : SState) : List SearchStep → SState
  | [] => s
  | op :: ops => runSteps A P (applyStep A P s op) ops

/-- Validity of a step sequence: every tighten step only tightens the
thresholds (candidate lists never loosen, which is how BaseCase
maintains them). -/
def stepsOk (A : Arena) (P : SortPolicy) : SState → List SearchStep → Prop
  | _, [] => True
  | s, op :: ops =>
      (match op with
       | .tighten f => ∀ i, Leq P (f i) (s.thr i)
       | .updateBound _ => True) ∧ stepsOk A P (applyStep A P s op) ops

/-- The invariant behind bound monotonicity: at every node, what
CalculateBound would store now is at least as tight as what is
currently stored. -/
def BoundInv (A : Arena) (P : SortPolicy) (s : SState) : Prop :=
  ∀ v, Leq P (calcTriple A P s.thr s.stats v).1 ((s.stats v).firstBound) ∧
    Leq P (calcTriple A P s.thr s.stats v).2.1 ((s.stats v).secondBound) ∧
    Leq P (calcTriple A P s.thr s.stats v).2.2 ((s.stats v).bound)

/-- A concrete three-point metric used by the counterexample to claim
C1: points 0 and 1 are the query tree's points (one unit apart), point
2 is the reference point; all triangle inequalities hold. -/
def cM1 : ℕ → ℕ → ℚ
  | 0, 1 => 1
  | 1, 0 => 1
  | 0, 2 => 40
  | 2, 0 => 40
  | 1, 2 => 39
  | 2, 1 => 39
  | _, _ => 0

/-- The arena of the C1 counterexample: node 0 is the query root owning
point 0 with child node 1 and radius 1; node 1 owns point 1; node 2 is
the reference node owning point 2 with radius 0. -/
def arena1 : Arena where
  parent v := if v = 1 then some 0 else none
  children v := if v = 0 then [1] else []
  points v := if v = 0 then [0] else if v = 1 then [1] else if v = 2 then [2] else []
  fdd v := if v = 0 then 1 else 0

/-- Fresh statistics for the C1 counterexample. -/
def stats1 : ℕ → Stat := fun _ => worstStat nnPolicy

/-- Rules state for the C1 counterexample: k = 1, point 0 already has a
candidate at distance 5, point 1 still has the sentinel entry, and the
memo holds no valid pair. -/
def st1 : Rules where
  k := 1
  sameSet := false
  distances i := if i = 0 then [5] else [DBL_MAX]
  neighbors _ := [99]
  lastQueryIndex := 99
  lastReferenceIndex := 99
  lastBaseCase := 0
  evalCount := 0

/-- An unused stand-in for the policy's geometric node-to-node bound on
the non-centroid branch. -/
def bntn0 : ℕ → ℕ → ℚ := fun _ _ => 0

/-- An unused stand-in for the policy's geometric point-to-node bound
on the non-centroid branch. -/
def bptn0 : ℕ → PNode → ℚ := fun _ _ => 0

/-- The arena of the C3 counterexample: node 0 has one child, node 1,
no owned points, radius 5; the child has radius 0. -/
def arena3 : Arena where
  parent _ := none
  children v := if v = 0 then [1] else []
  points _ := []
  fdd v := if v = 0 then 5 else 0

/-- Statistics for the C3 counterexample: the child's cached first
bound is 10 while its cached combined bound is 3, so the literal and
the amended reading of quantity (1) separate. -/
def stats3 : ℕ → Stat := fun v =>
  if v = 1 then
    { firstBound := 10, secondBound := 3, bound := 3, lastDistance := 0,
      lastDistanceNode := none }
  else worstStat nnPolicy

/-- Rules state for the C5 counterexample and the C4, C5, C7 and C8
witnesses: k = 2, self-search on one backing set, both shown columns at
the sentinel fill, no valid memo pair. -/
def st5 : Rules where
  k := 2
  sameSet := true
  distances _ := [DBL_MAX, DBL_MAX]
  neighbors _ := [99, 99]
  lastQueryIndex := 99
  lastReferenceIndex := 99
  lastBaseCase := 0
  evalCount := 0

/-- The metric of the C5 counterexample: points 1 and 2 are one unit
apart. -/
def cM5 : ℕ → ℕ → ℚ
  | 1, 2 => 1
  | 2, 1 => 1
  | _, _ => 0

/-- The arena of the C10 counterexample and the C10 witness: node 1 is
a self-child of node 0 (both have first point 0), node 2 is the
reference node owning point 2. -/
def arena10 : Arena where
  parent v := if v = 1 then some 0 else none
  children v := if v = 0 then [1] else []
  points v := if v = 2 then [2] else [0]
  fdd _ := 0

/-- Statistics for the C10 witness: the parent node 0 carries a cached
last-compared node, so the self-child branch dereference is safe. -/
def stats10 : ℕ → Stat := fun v =>
  if v = 0 then
    { firstBound := DBL_MAX, secondBound := DBL_MAX, bound := DBL_MAX,
      lastDistance := 20, lastDistanceNode := some 2 }
  else worstStat nnPolicy

/-- The arena of the C9 witness: a root (node 0) with one child (node
1), each owning its own point. -/
def arena9 : Arena where
  parent v := if v = 1 then some 0 else none
  children v := if v = 0 then [1] else []
  points v := if v = 0 then [0] else if v = 1 then [1] else []
  fdd _ := 1

/-- The threshold update of the C9 witness: query point 0 tightens to
3, everything else keeps the sentinel. -/
def thr9 : ℕ → ℚ := fun i => if i = 0 then 3 else DBL_MAX

/-- The initial state of the C9 witness: sentinel thresholds, fresh
statistics. -/
def sstate9 : SState := ⟨fun _ => DBL_MAX, fun _ => worstStat nnPolicy⟩

/-- Rules state for the C2 evaluation: separate query and reference
sets, k = 1, the query's current candidate at distance 10. -/
def stC2 : Rules where
  k := 1
  sameSet := false
  distances _ := [10]
  neighbors _ := [99]
  lastQueryIndex := 99
  lastReferenceIndex := 99
  lastBaseCase := 0
  evalCount := 0

/-- Reference node for the C2 evaluation: first point 3, radius 0, no
parent. -/
def nC2 : PNode where
  point0 := 3
  fdd := 0
  lastDistance := 0
  parentInfo := none

/-- Reference node for the point-to-node half of the C1 witness: first
point 2, radius 0, no parent. -/
def nC1a : PNode where
  point0 := 2
  fdd := 0
  lastDistance := 0
  parentInfo := none

/-- A lawful IsBetter is irreflexive, so Leq is reflexive. -/
theorem leqRefl {P : SortPolicy} (L : Lawful P) (a : ℚ) : Leq P a a := by
  unfold Leq
  cases hb : P.IsBetter a a with
  | false => rfl
  | true =>
      have h2 := L.asymm a a hb
      rw [h2] at hb
      exact hb.symm

/-- The better of two values is at least as tight as the first. -/
theorem betterOf_leq_left {P : SortPolicy} (L : Lawful P) (a b : ℚ) :
    Leq P (betterOf P a b) a := by
  unfold betterOf
  by_cases h : P.IsBetter a b = true
  · simp only [h, if_true]
    exact leqRefl L a
  · simp only [h, if_false]
    exact eq_false_of_ne_true h

/-- The better of two values is at least as tight as the second. -/
theorem betterOf_leq_right {P : SortPolicy} (L : Lawful P) (a b : ℚ) :
    Leq P (betterOf P a b) b := by
  unfold betterOf
  by_cases h : P.IsBetter a b = true
  · simp only [h, if_true]
    exact L.asymm a b h
  · simp only [h, if_false]
    exact leqRefl L b

/-- The first value is at least as tight as the worse of the two. -/
theorem leq_worseOf_left {P : SortPolicy} (L : Lawful P) (a b : ℚ) :
    Leq P a (worseOf P a b) := by
  unfold worseOf
  by_cases h : P.IsBetter a b = true
  · simp only [h, if_true]
    exact L.asymm a b h
  · simp only [h, if_false]
    exact leqRefl L a

/-- The second value is at least as tight as the worse of the two. -/
theorem leq_worseOf_right {P : SortPolicy} (L : Lawful P) (a b : ℚ) :
    Leq P b (worseOf P a b) := by
  unfold worseOf
  by_cases h : P.IsBetter a b = true
  · simp only [h, if_true]
    exact leqRefl L b
  · simp only [h, if_false]
    exact eq_false_of_ne_true h

/-- betterOf is monotone with respect to tightening in both arguments. -/
theorem betterOf_mono {P : SortPolicy} (L : Lawful P) {a b c d : ℚ}
    (hac : Leq P a c) (hbd : Leq P b d) :
    Leq P (betterOf P a b) (betterOf P c d) := by
  unfold betterOf
  by_cases h : P.IsBetter c d = true
  · simp only [h, if_true]
    exact L.leqTrans _ _ _ (betterOf_leq_left L a b) hac
  · simp only [h, if_false]
    exact L.leqTrans _ _ _ (betterOf_leq_right L a b) hbd

/-- worseOf is monotone with respect to tightening in both arguments. -/
theorem worseOf_mono {P : SortPolicy} (L : Lawful P) {a b c d : ℚ}
    (hac : Leq P a c) (hbd : Leq P b d) :
    Leq P (worseOf P a b) (worseOf P c d) := by
  unfold worseOf
  by_cases h : P.IsBetter a b = true
  · simp only [h, if_true]
    exact L.leqTrans _ _ _ hbd (leq_worseOf_right L c d)
  · simp only [h, if_false]
    exact L.leqTrans _ _ _ hac (leq_worseOf_left L c d)

/-- The nearest-neighbor policy satisfies the lawfulness conditions. -/
theorem nnLawful : Lawful nnPolicy := by
  constructor
  · intro a b h
    simp only [nnPolicy, decide_eq_true_eq] at h
    simpa [nnPolicy] using not_lt.mpr (le_of_lt h)
  · intro a b c h1 h2
    simp only [Leq, nnPolicy, decide_eq_false_iff_not, not_lt] at h1 h2 ⊢
    exact le_trans h1 h2
  · intro a b c h
    simp only [Leq, nnPolicy, decide_eq_false_iff_not, not_lt] at h ⊢
    linarith

/-- insertShift preserves the length of the column. -/
theorem insertShift_length {α : Type} (x : α) :
    ∀ (n : ℕ) (l : List α), (insertShift x n l).length = l.length := by
  intro n l
  induction l generalizing n with
  | nil => cases n <;> rfl
  | cons a tl ih =>
      cases n with
      | zero => simp [insertShift]
      | succ m => simp [insertShift, ih m]

/-- Entries before the insertion position are unchanged. -/
theorem insertShift_getD_lt {α : Type} (x d : α) :
    ∀ (n : ℕ) (l : List α) (i : ℕ), i < n → i < l.length →
      (insertShift x n l).getD i d = l.getD i d := by
  intro n l
  induction l generalizing n with
  | nil => intro i _ h2; simp at h2
  | cons a tl ih =>
      intro i h1 h2
      cases n with
      | zero => omega
      | succ m =>
          cases i with
          | zero => simp [insertShift]
          | succ j =>
              simp only [insertShift, List.getD_cons_succ]
              exact ih m j (by omega) (by simpa using h2)

/-- The new entry sits at the insertion position. -/
theorem insertShift_getD_self {α : Type} (x d : α) :
    ∀ (n : ℕ) (l : List α), n < l.length → (insertShift x n l).getD n d = x := by
  intro n l
  induction l generalizing n with
  | nil => intro h; simp at h
  | cons a tl ih =>
      intro h
      cases n with
      | zero => simp [insertShift]
      | succ m =>
          simp only [insertShift, List.getD_cons_succ]
          exact ih m (by simpa using h)

/-- getD of dropLast agrees with getD away from the final entry. -/
theorem dropLast_getD {α : Type} (d : α) :
    ∀ (l : List α) (i : ℕ), i + 1 < l.length → l.dropLast.getD i d = l.getD i d := by
  intro l
  induction l with
  | nil => intro i h; simp at h
  | cons a tl ih =>
      intro i h
      cases tl with
      | nil => simp at h
      | cons b tl2 =>
          cases i with
          | zero => simp [List.dropLast]
          | succ j =>
              simp only [List.dropLast, List.getD_cons_succ]
              exact ih j (by simpa using h)

/-- Entries after the insertion position hold their former
predecessors: the tail shifted down one slot. -/
theorem insertShift_getD_gt {α : Type} (x d : α) :
    ∀ (n : ℕ) (l : List α) (i : ℕ), n < i → i < l.length →
      (insertShift x n l).getD i d = l.getD (i - 1) d := by
  intro n l
  induction l generalizing n with
  | nil => intro i _ h2; simp at h2
  | cons a tl ih =>
      intro i h1 h2
      cases n with
      | zero =>
          cases i with
          | zero => omega
          | succ j =>
              simp only [insertShift, List.getD_cons_succ, Nat.succ_sub_one]
              exact dropLast_getD d (a :: tl) j (by simpa using h2)
      | succ m =>
          cases i with
          | zero => omega
          | succ j =>
              simp only [insertShift, List.getD_cons_succ, Nat.succ_sub_one]
              cases j with
              | zero => omega
              | succ j2 =>
                  have := ih m (j2 + 1) (by omega) (by simpa using h2)
                  simpa [Nat.succ_sub_one] using this

/-- Every entry of the shifted column is the new entry or an old one. -/
theorem insertShift_mem {α : Type} (x : α) :
    ∀ (n : ℕ) (l : List α) (y : α), y ∈ insertShift x n l → y = x ∨ y ∈ l := by
  intro n l
  induction l generalizing n with
  | nil => intro y h; simp [insertShift] at h
  | cons a tl ih =>
      intro y h
      cases n with
      | zero =>
          simp only [insertShift, List.mem_cons] at h
          rcases h with h | h
          · exact Or.inl h
          · exact Or.inr (List.dropLast_subset _ h)
      | succ m =>
          simp only [insertShift, List.mem_cons] at h
          rcases h with h | h
          · exact Or.inr (by simp [h])
          · rcases ih m y h with h2 | h2
            · exact Or.inl h2
            · exact Or.inr (by simp [h2])

/-- C7: for every queryIndex, every position in [0, k-1], every
referenceIndex and distance, InsertNeighbor shifts the entries
previously at positions position .. k-2 of the query's distance and
neighbor columns down by one slot (the previous worst entry at
position k-1 is discarded), writes (distance, referenceIndex) at
position, and leaves entries at positions 0 .. position-1 and every
other query's column unchanged. -/
theorem C7_insertNeighbor (st : Rules) (q pos r : ℕ) (d : ℚ)
    (hpos : pos < st.k)
    (hlen : (st.distances q).length = st.k)
    (hlenN : (st.neighbors q).length = st.k) :
    ((InsertNeighbor st q pos r d).distances q).length = st.k ∧
    ((InsertNeighbor st q pos r d).neighbors q).length = st.k ∧
    (∀ i, i < pos →
      ((InsertNeighbor st q pos r d).distances q).getD i 0 = (st.distances q).getD i 0 ∧
      ((InsertNeighbor st q pos r d).neighbors q).getD i 0 = (st.neighbors q).getD i 0) ∧
    ((InsertNeighbor st q pos r d).distances q).getD pos 0 = d ∧
    ((InsertNeighbor st q pos r d).neighbors q).getD pos 0 = r ∧
    (∀ i, pos < i → i < st.k →
      ((InsertNeighbor st q pos r d).distances q).getD i 0 =
        (st.distances q).getD (i - 1) 0 ∧
      ((InsertNeighbor st q pos r d).neighbors q).getD i 0 =
        (st.neighbors q).getD (i - 1) 0) ∧
    (∀ j, j ≠ q → (InsertNeighbor st q pos r d).distances j = st.distances j ∧
      (InsertNeighbor st q pos r d).neighbors j = st.neighbors j) := by
  simp only [InsertNeighbor, eq_self_iff_true, if_true]
  refine ⟨?_, ?_, ?_, ?_, ?_, ?_, ?_⟩
  · rw [insertShift_length, hlen]
  · rw [insertShift_length, hlenN]
  · intro i hi
    exact ⟨insertShift_getD_lt d 0 pos _ i hi (by omega),
           insertShift_getD_lt r 0 pos _ i hi (by omega)⟩
  · exact insertShift_getD_self d 0 pos _ (by omega)
  · exact insertShift_getD_self r 0 pos _ (by omega)
  · intro i h1 h2
    exact ⟨insertShift_getD_gt d 0 pos _ i h1 (by omega),
           insertShift_getD_gt r 0 pos _ i h1 (by omega)⟩
  · intro j hj
    simp [hj]

/-- Witness for C7: a concrete insertion at position 0 into a column of
width 2. -/
theorem C7_insertNeighbor_witness :
    ((InsertNeighbor st5 1 0 7 (3 : ℚ)).distances 1).getD 0 0 = 3 ∧
    ((InsertNeighbor st5 1 0 7 (3 : ℚ)).distances 1).getD 1 0 = DBL_MAX ∧
    ((InsertNeighbor st5 1 0 7 (3 : ℚ)).neighbors 1).getD 0 0 = 7 := by
  have h := C7_insertNeighbor st5 1 0 7 (3 : ℚ) (by decide) (by decide) (by decide)
  refine ⟨h.2.2.2.1, ?_, h.2.2.2.2.1⟩
  have h2 := (h.2.2.2.2.2.1 1 (by decide) (by decide)).1
  rw [h2]
  decide

/-- Any member of a neighbor column after an InsertNeighbor call was a
member before or is the inserted reference index. -/
theorem insertNeighbor_neighbors_mem (st : Rules) (a pos b q y : ℕ) (d : ℚ)
    (h : y ∈ (InsertNeighbor st a pos b d).neighbors q) :
    y ∈ st.neighbors q ∨ y = b := by
  unfold InsertNeighbor at h
  by_cases hqa : q = a
  · subst hqa
    simp only [eq_self_iff_true, if_true] at h
    rcases insertShift_mem b pos (st.neighbors q) y h with h2 | h2
    · exact Or.inr h2
    · exact Or.inl h2
  · simp only [hqa, if_false] at h
    exact Or.inl h

/-- Any member of a neighbor column after a BaseCase call was a member
before, or is the call's reference index with the call not elided as a
self match. -/
theorem baseCase_neighbors_mem (metric : ℕ → ℕ → ℚ) (P : SortPolicy) (st : Rules)
    (a b q y : ℕ) (h : y ∈ (BaseCase metric P st a b).2.neighbors q) :
    y ∈ st.neighbors q ∨ (y = b ∧ ¬(st.sameSet = true ∧ a = b)) := by
  unfold BaseCase at h
  by_cases h1 : st.sameSet = true ∧ a = b
  · rw [if_pos h1] at h
    exact Or.inl h
  · rw [if_neg h1] at h
    by_cases h2 : st.lastQueryIndex = a ∧ st.lastReferenceIndex = b
    · rw [if_pos h2] at h
      exact Or.inl h
    · rw [if_neg h2] at h
      simp only [baseCaseRecompute] at h
      cases hsd : P.SortDistance (st.distances a) (metric a b) with
      | none => simp only [hsd] at h; exact Or.inl h
      | some pos =>
          simp only [hsd] at h
          rcases insertNeighbor_neighbors_mem _ a pos b q y _ h with h3 | h3
          · exact Or.inl h3
          · exact Or.inr ⟨h3, h1⟩

/-- BaseCase on pair (a, b) leaves every neighbor column other than a
unchanged. -/
theorem baseCase_neighbors_other (metric : ℕ → ℕ → ℚ) (P : SortPolicy) (st : Rules)
    (a b q : ℕ) (hqa : q ≠ a) :
    (BaseCase metric P st a b).2.neighbors q = st.neighbors q := by
  unfold BaseCase
  by_cases h1 : st.sameSet = true ∧ a = b
  · rw [if_pos h1]
  · rw [if_neg h1]
    by_cases h2 : st.lastQueryIndex = a ∧ st.lastReferenceIndex = b
    · rw [if_pos h2]
    · rw [if_neg h2]
      simp only [baseCaseRecompute]
      cases hsd : P.SortDistance (st.distances a) (metric a b) with
      | none => simp [hsd]
      | some pos => simp [hsd, InsertNeighbor, hqa]

/-- C4: when the query set and the reference set are the identical
backing matrix, BaseCase(i, i) returns 0 and changes nothing: no
metric evaluation, no insertion into the candidate list, and no update
of the one-slot memo; consequently a point's own index never enters
its own candidate list through BaseCase. -/
theorem C4_selfMatch (metric : ℕ → ℕ → ℚ) (P : SortPolicy) (st : Rules) (i : ℕ)
    (hsame : st.sameSet = true) :
    BaseCase metric P st i i = (0, st) ∧
    (∀ a b q, q ∉ st.neighbors q → q ∉ (BaseCase metric P st a b).2.neighbors q) := by
  constructor
  · simp [BaseCase, hsame]
  · intro a b q hq hmem
    rcases baseCase_neighbors_mem metric P st a b q q hmem with h | ⟨hqb, hne⟩
    · exact hq h
    · by_cases hqa : a = q
      · exact hne ⟨hsame, hqa.trans hqb⟩
      · rw [baseCase_neighbors_other metric P st a b q (fun h => hqa h.symm)] at hmem
        exact hq hmem

/-- Witness for C4: the self base case at index 3 of the concrete
self-search state returns 0 and leaves the state untouched, and index
1 stays out of its own candidate column across a base case call. -/
theorem C4_selfMatch_witness :
    BaseCase cM5 nnPolicy st5 3 3 = (0, st5) ∧
    1 ∉ (BaseCase cM5 nnPolicy st5 1 2).2.neighbors 1 := by
  have h := C4_selfMatch cM5 nnPolicy st5 3 (by decide)
  exact ⟨h.1, h.2 1 2 1 (by decide)⟩

/-- C5 as stated is false: after the self-match-elided call (3, 3) the
memo still holds the pair (1, 2), so the next call on (1, 2) — whose
pair differs from the immediately preceding call's pair — reuses the
cached distance instead of recomputing: the recomputation path would
perform a second ranked insertion and leave column 1 as [1, 1], while
the code leaves it at [1, DBL_MAX]. -/
theorem C5_counterexample :
    ((1, 2) : ℕ × ℕ) ≠ (3, 3) ∧
    ¬((BaseCase cM5 nnPolicy (BaseCase cM5 nnPolicy st5 1 2).2 3 3).2.sameSet = true ∧
        (1 : ℕ) = 2) ∧
    (BaseCase cM5 nnPolicy
        (BaseCase cM5 nnPolicy (BaseCase cM5 nnPolicy st5 1 2).2 3 3).2 1 2).2.distances 1 ≠
      (baseCaseRecompute cM5 nnPolicy
        (BaseCase cM5 nnPolicy (BaseCase cM5 nnPolicy st5 1 2).2 3 3).2 1 2).2.distances 1 := by
  refine ⟨by decide, by with_unfolding_all decide, by with_unfolding_all decide⟩

/-- C5 amended: two consecutive BaseCase calls with the same pair
return the same distance and leave the state unchanged; and a call
whose pair differs from the memoized pair (lastQueryIndex,
lastReferenceIndex) — rather than from the immediately preceding
call's pair, since self-match-elided calls do not refresh the memo —
and is not a self match recomputes via the metric, afterwards
overwriting the memo and returning the computed distance regardless of
whether it was inserted. -/
theorem C5_amended (metric : ℕ → ℕ → ℚ) (P : SortPolicy) (st : Rules) (q r : ℕ) :
    (BaseCase metric P (BaseCase metric P st q r).2 q r = BaseCase metric P st q r) ∧
    (¬(st.sameSet = true ∧ q = r) →
      ¬(st.lastQueryIndex = q ∧ st.lastReferenceIndex = r) →
      BaseCase metric P st q r = baseCaseRecompute metric P st q r ∧
      (BaseCase metric P st q r).1 = metric q r ∧
      (BaseCase metric P st q r).2.lastQueryIndex = q ∧
      (BaseCase metric P st q r).2.lastReferenceIndex = r ∧
      (BaseCase metric P st q r).2.lastBaseCase = metric q r ∧
      (BaseCase metric P st q r).2.evalCount = st.evalCount + 1) := by
  constructor
  · by_cases h1 : st.sameSet = true ∧ q = r
    · simp [BaseCase, h1]
    · by_cases h2 : st.lastQueryIndex = q ∧ st.lastReferenceIndex = r
      · simp [BaseCase, h1, h2]
      · have hsame : (baseCaseRecompute metric P st q r).2.sameSet = st.sameSet := by
          unfold baseCaseRecompute
          cases hsd : P.SortDistance (st.distances q) (metric q r) <;> simp [hsd, InsertNeighbor]
        have hmemoQ : (baseCaseRecompute metric P st q r).2.lastQueryIndex = q := by
          unfold baseCaseRecompute
          cases hsd : P.SortDistance (st.distances q) (metric q r) <;> simp [hsd]
        have hmemoR : (baseCaseRecompute metric P st q r).2.lastReferenceIndex = r := by
          unfold baseCaseRecompute
          cases hsd : P.SortDistance (st.distances q) (metric q r) <;> simp [hsd]
        have hmemoB : (baseCaseRecompute metric P st q r).2.lastBaseCase = metric q r := by
          unfold baseCaseRecompute
          cases hsd : P.SortDistance (st.distances q) (metric q r) <;> simp [hsd]
        have hval : (baseCaseRecompute metric P st q r).1 = metric q r := by
          unfold baseCaseRecompute
          cases hsd : P.SortDistance (st.distances q) (metric q r) <;> simp [hsd]
        have hbc : BaseCase metric P st q r = baseCaseRecompute metric P st q r := by
          rw [BaseCase, if_neg h1, if_neg h2]
        rw [hbc, BaseCase,
          if_neg (fun hx => h1 ⟨hsame.symm.trans hx.1, hx.2⟩), if_pos ⟨hmemoQ, hmemoR⟩]
        exact Prod.ext_iff.mpr ⟨hmemoB.trans hval.symm, rfl⟩
  · intro h1 h2
    have hbc : BaseCase metric P st q r = baseCaseRecompute metric P st q r := by
      rw [BaseCase, if_neg h1, if_neg h2]
    refine ⟨hbc, ?_, ?_, ?_, ?_, ?_⟩ <;> rw [hbc] <;>
      · unfold baseCaseRecompute
        cases hsd : P.SortDistance (st.distances q) (metric q r) <;> simp [hsd, InsertNeighbor]

/-- Witness for C5 amended: a fresh pair is recomputed (metric value 1
returned, memo overwritten), and repeating it immediately returns the
same result without further change. -/
theorem C5_amended_witness :
    BaseCase cM5 nnPolicy (BaseCase cM5 nnPolicy st5 1 2).2 1 2 =
      BaseCase cM5 nnPolicy st5 1 2 ∧
    (BaseCase cM5 nnPolicy st5 1 2).1 = cM5 1 2 ∧
    (BaseCase cM5 nnPolicy st5 1 2).2.evalCount = st5.evalCount + 1 := by
  have h := C5_amended cM5 nnPolicy st5 1 2
  have h2 := h.2 (by with_unfolding_all decide) (by decide)
  exact ⟨h.1, h2.2.1, h2.2.2.2.2.2⟩

/-- C6: both Rescore overloads return the prune sentinel whenever
oldScore is the prune sentinel; otherwise they return either oldScore
unchanged (when it is still better, under the policy, than the query's
current threshold) or the prune sentinel — never a newly computed
distance — so a subtree once pruned is never un-pruned within the same
pass. -/
theorem C6_rescore (A : Arena) (P : SortPolicy) (st : Rules) (stats : ℕ → Stat)
    (q qn : ℕ) (oldScore : ℚ) :
    (oldScore = DBL_MAX → RescorePoint P st q oldScore = DBL_MAX) ∧
    (RescorePoint P st q oldScore = oldScore ∨ RescorePoint P st q oldScore = DBL_MAX) ∧
    (oldScore ≠ DBL_MAX → RescorePoint P st q oldScore =
      (if P.IsBetter oldScore ((st.distances q).getD (st.k - 1) 0) then oldScore
       else DBL_MAX)) ∧
    (oldScore = DBL_MAX → (RescoreNode A P st stats qn oldScore).1 = DBL_MAX) ∧
    ((RescoreNode A P st stats qn oldScore).1 = oldScore ∨
      (RescoreNode A P st stats qn oldScore).1 = DBL_MAX) ∧
    (oldScore ≠ DBL_MAX → (RescoreNode A P st stats qn oldScore).1 =
      (if P.IsBetter oldScore (CalculateBound A P (thresholdFun st) stats qn).1
       then oldScore else DBL_MAX)) := by
  refine ⟨?_, ?_, ?_, ?_, ?_, ?_⟩
  · intro h
    simp [RescorePoint, h]
  · by_cases h : oldScore = DBL_MAX
    · exact Or.inr (by simp [RescorePoint, h])
    · unfold RescorePoint
      rw [if_neg h]
      split
      · exact Or.inl rfl
      · exact Or.inr rfl
  · intro h
    unfold RescorePoint
    rw [if_neg h]
  · intro h
    simp [RescoreNode, h]
  · by_cases h : oldScore = DBL_MAX
    · exact Or.inr (by simp [RescoreNode, h])
    · unfold RescoreNode
      rw [if_neg h]
      dsimp only
      split
      · exact Or.inl rfl
      · exact Or.inr rfl
  · intro h
    unfold RescoreNode
    rw [if_neg h]

/-- Witness for C6: the sentinel stays the sentinel, and a live score
of 4 against the concrete threshold DBL_MAX survives both overloads. -/
theorem C6_rescore_witness :
    RescorePoint nnPolicy st5 0 DBL_MAX = DBL_MAX ∧
    RescorePoint nnPolicy st5 0 4 = 4 ∧
    (RescoreNode arena9 nnPolicy st5 stats1 0 DBL_MAX).1 = DBL_MAX := by
  refine ⟨(C6_rescore arena9 nnPolicy st5 stats1 0 0 DBL_MAX).1 rfl, ?_,
    (C6_rescore arena9 nnPolicy st5 stats1 0 0 DBL_MAX).2.2.2.1 rfl⟩
  have h := (C6_rescore arena9 nnPolicy st5 stats1 0 0 (4 : ℚ)).2.2.1 (by with_unfolding_all decide)
  rw [h]
  with_unfolding_all decide

/-- C2 fails as a property of the code: on a tree whose first point is
the centroid but which has no self children, the point-to-node Score
never assigns the local baseCase and combines an indeterminate value
with the radius — two different residues of the uninitialized local
produce two different returned scores on otherwise identical inputs,
whereas the claim requires the single value CombineBest applied to the
base-case distance to the node's first point. -/
theorem C2_uninitializedBaseCase :
    (ScorePointNode ⟨true, false⟩ cM5 nnPolicy bptn0 stC2 0 nC2 1).1 = 1 ∧
    (ScorePointNode ⟨true, false⟩ cM5 nnPolicy bptn0 stC2 0 nC2 2).1 = 2 ∧
    (ScorePointNode ⟨true, false⟩ cM5 nnPolicy bptn0 stC2 0 nC2 1).1 ≠
      (ScorePointNode ⟨true, false⟩ cM5 nnPolicy bptn0 stC2 0 nC2 2).1 := by
  refine ⟨by with_unfolding_all decide, by with_unfolding_all decide, by with_unfolding_all decide⟩

/-- DBL_MAX is the exact value of the largest finite IEEE-754 double. -/
theorem DBL_MAX_eq : DBL_MAX = 2 ^ 1024 - 2 ^ 971 := by
  norm_num [DBL_MAX]

/-- The worst-and-best pair fold that the loops of CalculateBound run
splits into the two component folds. -/
theorem foldl_pair_wb {β : Type} (P : SortPolicy) (f g : β → ℚ) :
    ∀ (l : List β) (a b : ℚ),
      l.foldl (fun wb x => (worseOf P wb.1 (f x), betterOf P (g x) wb.2)) (a, b) =
        (l.foldl (fun acc x => worseOf P acc (f x)) a,
         l.foldl (fun acc x => betterOf P (g x) acc) b) := by
  intro l
  induction l with
  | nil => intro a b; rfl
  | cons x xs ih => intro a b; exact ih (worseOf P a (f x)) (betterOf P (g x) b)

/-- The single pass of CalculateBound over the owned points computes
the worst and the best of the mapped threshold list. -/
theorem calc_points_fold (A : Arena) (P : SortPolicy) (thr : ℕ → ℚ) (v : ℕ) :
    (A.points v).foldl
        (fun wb i => (worseOf P wb.1 (thr i), betterOf P (thr i) wb.2))
        (P.BestDistance, P.WorstDistance) =
      (worstList P ((A.points v).map thr), bestList P ((A.points v).map thr)) := by
  rw [foldl_pair_wb P thr thr]
  unfold worstList bestList
  rw [List.foldl_map, List.foldl_map]

/-- The single pass of CalculateBound over the children computes the
worst of the first bounds and the best of the adjusted second bounds. -/
theorem calc_children_fold (A : Arena) (P : SortPolicy) (stats : ℕ → Stat) (v : ℕ) :
    (A.children v).foldl
        (fun wb c =>
          (worseOf P wb.1 (stats c).firstBound,
           betterOf P (P.CombineWorst (stats c).secondBound (2 * (A.fdd v - A.fdd c))) wb.2))
        (P.BestDistance, P.WorstDistance) =
      (worstList P ((A.children v).map (fun c => (stats c).firstBound)),
       bestList P ((A.children v).map
        (fun c => P.CombineWorst (stats c).secondBound (2 * (A.fdd v - A.fdd c))))) := by
  rw [foldl_pair_wb P (fun c => (stats c).firstBound)
    (fun c => P.CombineWorst (stats c).secondBound (2 * (A.fdd v - A.fdd c)))]
  unfold worstList bestList
  rw [List.foldl_map, List.foldl_map]

/-- C3 as stated is false: section 4.4's quantity (1) reads the
children's cached combined bound values, while the code reads the
children's cached first bounds; on a node whose child caches first
bound 10 and combined bound 3, the code returns 10 and stores first
bound 10 where the literal reading of the spec returns and stores 3. -/
theorem C3_counterexample :
    (CalculateBound arena3 nnPolicy (fun _ => 0) stats3 0).1 ≠
      (calcBoundSpecLiteral arena3 nnPolicy (fun _ => 0) stats3 0).1 ∧
    ((CalculateBound arena3 nnPolicy (fun _ => 0) stats3 0).2 0).firstBound ≠
      ((calcBoundSpecLiteral arena3 nnPolicy (fun _ => 0) stats3 0).2 0).firstBound := by
  constructor <;> with_unfolding_all decide

/-- C3 amended: CalculateBound computes the five quantities of section
4.4 with the child contribution to quantity (1) being each child's
cached firstBound (not its combined bound), combines them exactly as
firstBound = best(1,4), intermediate = best(3,2),
secondBound = best(intermediate, 5), bound = best(firstBound,
secondBound), stores all three onto the node, leaves every other node
untouched, and returns the final bound. -/
theorem C3_amended (A : Arena) (P : SortPolicy) (thr : ℕ → ℚ) (stats : ℕ → Stat) (v : ℕ) :
    CalculateBound A P thr stats v = calcBoundSpecAmended A P thr stats v ∧
    (CalculateBound A P thr stats v).1 = ((CalculateBound A P thr stats v).2 v).bound ∧
    (∀ n, n ≠ v → (CalculateBound A P thr stats v).2 n = stats n) := by
  refine ⟨?_, ?_, ?_⟩
  · unfold CalculateBound calcTriple calcBoundSpecAmended
    rw [calc_points_fold, calc_children_fold]
  · unfold CalculateBound
    simp
  · intro n hn
    unfold CalculateBound
    simp [hn]

/-- Witness for C3 amended: evaluated on the concrete node of the
counterexample, where the returned bound is the stored bound. -/
theorem C3_amended_witness :
    (CalculateBound arena3 nnPolicy (fun _ => 0) stats3 0).1 =
      (calcBoundSpecAmended arena3 nnPolicy (fun _ => 0) stats3 0).1 ∧
    (CalculateBound arena3 nnPolicy (fun _ => 0) stats3 0).2 5 = stats3 5 := by
  have h := C3_amended arena3 nnPolicy (fun _ => 0) stats3 0
  exact ⟨by rw [h.1], h.2.2 5 (by decide)⟩

/-- What a successful SortDistance search returns: a position inside
the list whose entry the new distance beats, with no earlier entry
beaten. -/
theorem sdf_some (better : ℚ → ℚ → Bool) :
    ∀ (l : List ℚ) (d : ℚ) (pos : ℕ), sortDistanceFirst better l d = some pos →
      pos < l.length ∧ better d (l.getD pos 0) = true ∧
      ∀ i, i < pos → better d (l.getD i 0) = false := by
  intro l
  induction l with
  | nil => intro d pos h; simp [sortDistanceFirst] at h
  | cons a tl ih =>
      intro d pos h
      by_cases hb : better d a = true
      · rw [sortDistanceFirst, if_pos hb] at h
        have hp0 : pos = 0 := by
          cases h
          rfl
        subst hp0
        exact ⟨by simp, by simpa using hb, fun i hi => absurd hi (by omega)⟩
      · have hb2 : better d a = false := eq_false_of_ne_true hb
        rw [sortDistanceFirst, if_neg (by simp [hb2])] at h
        obtain ⟨pos0, h0, hpos⟩ := Option.map_eq_some'.mp h
        obtain ⟨h1, h2, h3⟩ := ih d pos0 h0
        subst hpos
        refine ⟨by simpa using Nat.succ_lt_succ h1, by simpa using h2, ?_⟩
        intro i hi
        cases i with
        | zero => simpa using hb2
        | succ j => simpa using h3 j (by omega)

/-- Chain-sortedness survives dropping the last entry. -/
theorem chain'_dropLast {α : Type} {R : α → α → Prop} :
    ∀ (l : List α), List.Chain' R l → List.Chain' R l.dropLast := by
  intro l
  induction l with
  | nil => intro h; simp
  | cons a tl ih =>
      intro h
      cases tl with
      | nil => simp
      | cons b tl2 =>
          rw [List.chain'_cons] at h
          cases tl2 with
          | nil => simp
          | cons c tl3 =>
              have hTail := ih h.2
              show List.Chain' R (a :: (b :: c :: tl3).dropLast)
              rw [List.chain'_cons']
              refine ⟨?_, hTail⟩
              intro y hy
              have : (b :: c :: tl3).dropLast = b :: (c :: tl3).dropLast := rfl
              rw [this] at hy
              simp only [List.head?_cons, Option.mem_def, Option.some.injEq] at hy
              subst hy
              exact h.1

/-- Adjacent entries of a chain-sorted list are related. -/
theorem chain'_getD {R : ℚ → ℚ → Prop} :
    ∀ (l : List ℚ) (i : ℕ), List.Chain' R l → i + 1 < l.length →
      R (l.getD i 0) (l.getD (i + 1) 0) := by
  intro l
  induction l with
  | nil => intro i _ h; simp at h
  | cons a tl ih =>
      intro i h hlen
      cases tl with
      | nil => simp at hlen
      | cons b tl2 =>
          rw [List.chain'_cons] at h
          cases i with
          | zero => simpa using h.1
          | succ j =>
              simp only [List.getD_cons_succ]
              exact ih j h.2 (by simpa using hlen)

/-- Inserting at the position SortDistance returns keeps the column
sorted. -/
theorem insertShift_sorted {P : SortPolicy} (L : Lawful P) :
    ∀ (l : List ℚ) (pos : ℕ) (d : ℚ),
      sortedList P l → sortDistanceFirst P.IsBetter l d = some pos →
      sortedList P (insertShift d pos l) := by
  intro l
  induction l with
  | nil => intro pos d _ h; simp [sortDistanceFirst] at h
  | cons a tl ih =>
      intro pos d hs h
      by_cases hb : P.IsBetter d a = true
      · have hp0 : pos = 0 := by
          rw [sortDistanceFirst, if_pos hb] at h
          cases h
          rfl
        subst hp0
        show List.Chain' _ (d :: (a :: tl).dropLast)
        rw [List.chain'_cons']
        refine ⟨?_, chain'_dropLast _ hs⟩
        intro y hy
        cases tl with
        | nil => simp at hy
        | cons b tl2 =>
            have : (a :: b :: tl2).dropLast = a :: (b :: tl2).dropLast := rfl
            rw [this] at hy
            simp only [List.head?_cons, Option.mem_def, Option.some.injEq] at hy
            subst hy
            exact L.asymm d a hb
      · have hb2 : P.IsBetter d a = false := eq_false_of_ne_true hb
        rw [sortDistanceFirst, if_neg (by simp [hb2])] at h
        obtain ⟨pos0, h0, hpos⟩ := Option.map_eq_some'.mp h
        subst hpos
        show List.Chain' _ (a :: insertShift d pos0 tl)
        rw [List.chain'_cons']
        have hstl : sortedList P tl := (List.chain'_cons'.mp hs).2
        refine ⟨?_, ih pos0 d hstl h0⟩
        intro y hy
        cases tl with
        | nil => simp [sortDistanceFirst] at h0
        | cons b tl2 =>
            cases pos0 with
            | zero =>
                simp only [insertShift, List.head?_cons, Option.mem_def,
                  Option.some.injEq] at hy
                subst hy
                exact hb2
            | succ m =>
                simp only [insertShift, List.head?_cons, Option.mem_def,
                  Option.some.injEq] at hy
                subst hy
                exact (List.chain'_cons.mp hs).1

/-- Inserting at the position SortDistance returns only tightens the
column pointwise: in particular the worst (last) entry never loosens
and a previously discarded worst entry can never reappear. -/
theorem insertShift_tighten {P : SortPolicy} (L : Lawful P) (l : List ℚ) (pos : ℕ) (d : ℚ)
    (hs : sortedList P l) (h : sortDistanceFirst P.IsBetter l d = some pos) :
    ∀ i, Leq P ((insertShift d pos l).getD i 0) (l.getD i 0) := by
  intro i
  obtain ⟨hlen, hbeat, hbefore⟩ := sdf_some P.IsBetter l d pos h
  rcases lt_trichotomy i pos with hi | hi | hi
  · rw [insertShift_getD_lt d 0 pos l i hi (by omega)]
    exact leqRefl L _
  · subst hi
    rw [insertShift_getD_self d 0 i l hlen]
    exact L.asymm _ _ hbeat
  · by_cases hil : i < l.length
    · rw [insertShift_getD_gt d 0 pos l i hi hil]
      have hchain := chain'_getD (R := fun a b => P.IsBetter b a = false) l (i - 1) hs
        (by omega)
      rw [show i - 1 + 1 = i by omega] at hchain
      exact hchain
    · rw [List.getD_eq_default _ _ (by rw [insertShift_length]; omega),
        List.getD_eq_default _ _ (by omega)]
      exact leqRefl L _

/-- BaseCase never changes k. -/
theorem baseCase_k (metric : ℕ → ℕ → ℚ) (P : SortPolicy) (st : Rules) (q r : ℕ) :
    (BaseCase metric P st q r).2.k = st.k := by
  unfold BaseCase
  by_cases h1 : st.sameSet = true ∧ q = r
  · rw [if_pos h1]
  · rw [if_neg h1]
    by_cases h2 : st.lastQueryIndex = q ∧ st.lastReferenceIndex = r
    · rw [if_pos h2]
    · rw [if_neg h2]
      simp only [baseCaseRecompute]
      cases hp : P.SortDistance (st.distances q) (metric q r) <;>
        simp [hp, InsertNeighbor]

/-- One BaseCase call preserves sortedness and the column widths, and
only tightens the distance columns pointwise. -/
theorem baseCase_invariant {P : SortPolicy} (L : Lawful P) (metric : ℕ → ℕ → ℚ)
    (hsd : P.SortDistance = fun l d => sortDistanceFirst P.IsBetter l d)
    (st : Rules) (q r : ℕ)
    (hinv : ∀ j, sortedList P (st.distances j) ∧ (st.distances j).length = st.k ∧
      (st.neighbors j).length = st.k) :
    (∀ j, sortedList P ((BaseCase metric P st q r).2.distances j) ∧
      ((BaseCase metric P st q r).2.distances j).length = st.k ∧
      ((BaseCase metric P st q r).2.neighbors j).length = st.k) ∧
    (∀ j i, Leq P (((BaseCase metric P st q r).2.distances j).getD i 0)
      ((st.distances j).getD i 0)) := by
  unfold BaseCase
  by_cases h1 : st.sameSet = true ∧ q = r
  · rw [if_pos h1]
    exact ⟨hinv, fun j i => leqRefl L _⟩
  · rw [if_neg h1]
    by_cases h2 : st.lastQueryIndex = q ∧ st.lastReferenceIndex = r
    · rw [if_pos h2]
      exact ⟨hinv, fun j i => leqRefl L _⟩
    · rw [if_neg h2]
      simp only [baseCaseRecompute, hsd]
      cases hp : sortDistanceFirst P.IsBetter (st.distances q) (metric q r) with
      | none =>
          simp only [hp]
          exact ⟨hinv, fun j i => leqRefl L _⟩
      | some pos =>
          simp only [hp]
          constructor
          · intro j
            by_cases hj : j = q
            · subst hj
              simp only [InsertNeighbor, eq_self_iff_true, if_true]
              refine ⟨insertShift_sorted L _ pos _ (hinv j).1 hp, ?_, ?_⟩
              · rw [insertShift_length]
                exact (hinv j).2.1
              · rw [insertShift_length]
                exact (hinv j).2.2
            · simp only [InsertNeighbor, hj, if_false]
              exact hinv j
          · intro j i
            by_cases hj : j = q
            · subst hj
              simp only [InsertNeighbor, eq_self_iff_true, if_true]
              exact insertShift_tighten L _ pos _ (hinv j).1 hp i
            · simp only [InsertNeighbor, hj, if_false]
              exact leqRefl L _

/-- A BaseCase call only tightens the pruning thresholds, so a search
step made of BaseCase calls is a valid tighten step of the
bound-monotonicity model. -/
theorem baseCase_thresholds_tighten {P : SortPolicy} (L : Lawful P) (metric : ℕ → ℕ → ℚ)
    (hsd : P.SortDistance = fun l d => sortDistanceFirst P.IsBetter l d)
    (st : Rules) (q r : ℕ)
    (hinv : ∀ j, sortedList P (st.distances j) ∧ (st.distances j).length = st.k ∧
      (st.neighbors j).length = st.k) :
    ∀ i, Leq P (thresholdFun (BaseCase metric P st q r).2 i) (thresholdFun st i) := by
  intro i
  have h := (baseCase_invariant L metric hsd st q r hinv).2 i (st.k - 1)
  have hk := baseCase_k metric P st q r
  unfold thresholdFun
  rw [hk]
  exact h

/-- C8: if every candidate list is sorted with exactly k entries and
insertion positions come from the policy's SortDistance search, then
after any sequence of BaseCase calls every candidate list is still
sorted, still has exactly k entries, and every slot (in particular the
worst, pruning slot) has only tightened, so no discarded worst entry
ever reappears. -/
theorem C8_candidateInvariant {P : SortPolicy} (L : Lawful P) (metric : ℕ → ℕ → ℚ)
    (hsd : P.SortDistance = fun l d => sortDistanceFirst P.IsBetter l d) :
    ∀ (ops : List (ℕ × ℕ)) (st : Rules),
      (∀ j, sortedList P (st.distances j) ∧ (st.distances j).length = st.k ∧
        (st.neighbors j).length = st.k) →
      (∀ j, sortedList P ((runBaseCases metric P st ops).distances j) ∧
        ((runBaseCases metric P st ops).distances j).length = st.k ∧
        ((runBaseCases metric P st ops).neighbors j).length = st.k) ∧
      (∀ j i, Leq P (((runBaseCases metric P st ops).distances j).getD i 0)
        ((st.distances j).getD i 0)) := by
  intro ops
  induction ops with
  | nil =>
      intro st hinv
      exact ⟨hinv, fun j i => leqRefl L _⟩
  | cons p ps ih =>
      intro st hinv
      have hstep := baseCase_invariant L metric hsd st p.1 p.2 hinv
      have hk := baseCase_k metric P st p.1 p.2
      have hinv2 : ∀ j, sortedList P ((BaseCase metric P st p.1 p.2).2.distances j) ∧
          ((BaseCase metric P st p.1 p.2).2.distances j).length =
            (BaseCase metric P st p.1 p.2).2.k ∧
          ((BaseCase metric P st p.1 p.2).2.neighbors j).length =
            (BaseCase metric P st p.1 p.2).2.k := by
        intro j
        rw [hk]
        exact hstep.1 j
      have hrec := ih (BaseCase metric P st p.1 p.2).2 hinv2
      constructor
      · intro j
        have h3 := hrec.1 j
        rw [hk] at h3
        simpa [runBaseCases] using h3
      · intro j i
        have h4 := hrec.2 j i
        have h5 := hstep.2 j i
        have h6 : (runBaseCases metric P st (p :: ps)).distances j =
            (runBaseCases metric P (BaseCase metric P st p.1 p.2).2 ps).distances j := rfl
        rw [h6]
        exact L.leqTrans _ _ _ h4 h5

/-- Witness for C8: two base cases over the concrete self-search state
leave column 1 sorted at width two with the worst slot only
tightened. -/
theorem C8_candidateInvariant_witness :
    sortedList nnPolicy ((runBaseCases cM5 nnPolicy st5 [(1, 2), (3, 3)]).distances 1) ∧
    ((runBaseCases cM5 nnPolicy st5 [(1, 2), (3, 3)]).distances 1).length = 2 ∧
    Leq nnPolicy (((runBaseCases cM5 nnPolicy st5 [(1, 2), (3, 3)]).distances 1).getD 1 0)
      ((st5.distances 1).getD 1 0) := by
  have hinv : ∀ j, sortedList nnPolicy (st5.distances j) ∧
      (st5.distances j).length = st5.k ∧ (st5.neighbors j).length = st5.k := by
    intro j
    refine ⟨?_, rfl, rfl⟩
    show List.Chain' _ [DBL_MAX, DBL_MAX]
    rw [List.chain'_cons]
    exact ⟨by decide, List.chain'_singleton _⟩
  have h := C8_candidateInvariant nnLawful cM5 rfl [(1, 2), (3, 3)] st5 hinv
  exact ⟨(h.1 1).1, (h.1 1).2.1, h.2 1 1⟩

/-- The worst-accumulating fold is monotone in the inputs and the
accumulator. -/
theorem foldl_worse_mono {P : SortPolicy} (L : Lawful P) {β : Type} (f f2 : β → ℚ) :
    ∀ (xs : List β) (a a2 : ℚ), (∀ x ∈ xs, Leq P (f2 x) (f x)) → Leq P a2 a →
      Leq P (xs.foldl (fun acc x => worseOf P acc (f2 x)) a2)
        (xs.foldl (fun acc x => worseOf P acc (f x)) a) := by
  intro xs
  induction xs with
  | nil => intro a a2 _ h; exact h
  | cons x l ih =>
      intro a a2 hf ha
      exact ih _ _ (fun y hy => hf y (by simp [hy]))
        (worseOf_mono L ha (hf x (by simp)))

/-- The best-accumulating fold is monotone in the inputs and the
accumulator. -/
theorem foldl_better_mono {P : SortPolicy} (L : Lawful P) {β : Type} (f f2 : β → ℚ) :
    ∀ (xs : List β) (a a2 : ℚ), (∀ x ∈ xs, Leq P (f2 x) (f x)) → Leq P a2 a →
      Leq P (xs.foldl (fun acc x => betterOf P (f2 x) acc) a2)
        (xs.foldl (fun acc x => betterOf P (f x) acc) a) := by
  intro xs
  induction xs with
  | nil => intro a a2 _ h; exact h
  | cons x l ih =>
      intro a a2 hf ha
      exact ih _ _ (fun y hy => hf y (by simp [hy]))
        (betterOf_mono L (hf x (by simp)) ha)

/-- The worst of a mapped list is monotone under pointwise
tightening. -/
theorem worstList_map_mono {P : SortPolicy} (L : Lawful P) {β : Type} (f f2 : β → ℚ)
    (xs : List β) (hf : ∀ x ∈ xs, Leq P (f2 x) (f x)) :
    Leq P (worstList P (xs.map f2)) (worstList P (xs.map f)) := by
  unfold worstList
  rw [List.foldl_map, List.foldl_map]
  exact foldl_worse_mono L (fun x => f x) (fun x => f2 x) xs _ _ hf (leqRefl L _)

/-- The best of a mapped list is monotone under pointwise tightening. -/
theorem bestList_map_mono {P : SortPolicy} (L : Lawful P) {β : Type} (f f2 : β → ℚ)
    (xs : List β) (hf : ∀ x ∈ xs, Leq P (f2 x) (f x)) :
    Leq P (bestList P (xs.map f2)) (bestList P (xs.map f)) := by
  unfold bestList
  rw [List.foldl_map, List.foldl_map]
  exact foldl_better_mono L (fun x => f x) (fun x => f2 x) xs _ _ hf (leqRefl L _)

/-- The three values CalculateBound computes are monotone in the
thresholds and in the children's and parent's stored bounds. -/
theorem calcTriple_mono {P : SortPolicy} (L : Lawful P) (A : Arena)
    (thr thr2 : ℕ → ℚ) (stats stats2 : ℕ → Stat) (v : ℕ)
    (hthr : ∀ i, Leq P (thr2 i) (thr i))
    (hstats : ∀ c, Leq P (stats2 c).firstBound (stats c).firstBound ∧
      Leq P (stats2 c).secondBound (stats c).secondBound) :
    Leq P (calcTriple A P thr2 stats2 v).1 (calcTriple A P thr stats v).1 ∧
    Leq P (calcTriple A P thr2 stats2 v).2.1 (calcTriple A P thr stats v).2.1 ∧
    Leq P (calcTriple A P thr2 stats2 v).2.2 (calcTriple A P thr stats v).2.2 := by
  unfold calcTriple
  rw [calc_points_fold, calc_points_fold, calc_children_fold, calc_children_fold]
  dsimp only
  have hwp := worstList_map_mono L thr thr2 (A.points v) (fun x _ => hthr x)
  have hbp := bestList_map_mono L thr thr2 (A.points v) (fun x _ => hthr x)
  have hwc := worstList_map_mono L (fun c => (stats c).firstBound)
    (fun c => (stats2 c).firstBound) (A.children v) (fun c _ => (hstats c).1)
  have hbc := bestList_map_mono L
    (fun c => P.CombineWorst (stats c).secondBound (2 * (A.fdd v - A.fdd c)))
    (fun c => P.CombineWorst (stats2 c).secondBound (2 * (A.fdd v - A.fdd c)))
    (A.children v) (fun c _ => L.cwMono _ _ _ (hstats c).2)
  have h4 : Leq P
      (match A.parent v with | some p => (stats2 p).firstBound | none => P.WorstDistance)
      (match A.parent v with | some p => (stats p).firstBound | none => P.WorstDistance) := by
    cases A.parent v with
    | none => exact leqRefl L _
    | some p => exact (hstats p).1
  have h5 : Leq P
      (match A.parent v with | some p => (stats2 p).secondBound | none => P.WorstDistance)
      (match A.parent v with | some p => (stats p).secondBound | none => P.WorstDistance) := by
    cases A.parent v with
    | none => exact leqRefl L _
    | some p => exact (hstats p).2
  have hFirst := worseOf_mono L hwp hwc
  have hSecond := L.cwMono _ _ (2 * A.fdd v) hbp
  have hA := betterOf_mono L hFirst h4
  have hB := betterOf_mono L hbc hSecond
  have hC := betterOf_mono L hB h5
  exact ⟨hA, hC, betterOf_mono L hA hC⟩

/-- The first computed value is at least as tight as the parent's first
bound, the second as the parent's second bound, and the combined value
as the second. -/
theorem calcTriple_leq45 {P : SortPolicy} (L : Lawful P) (A : Arena)
    (thr : ℕ → ℚ) (stats : ℕ → Stat) (v : ℕ) :
    Leq P (calcTriple A P thr stats v).1
      (match A.parent v with | some p => (stats p).firstBound | none => P.WorstDistance) ∧
    Leq P (calcTriple A P thr stats v).2.1
      (match A.parent v with | some p => (stats p).secondBound | none => P.WorstDistance) ∧
    Leq P (calcTriple A P thr stats v).2.2 (calcTriple A P thr stats v).2.1 := by
  unfold calcTriple
  dsimp only
  exact ⟨betterOf_leq_right L _ _, betterOf_leq_right L _ _, betterOf_leq_right L _ _⟩

/-- The statistics CalculateBound stores at its own node are exactly
the computed triple. -/
theorem calcBound_stats_self (A : Arena) (P : SortPolicy) (thr : ℕ → ℚ)
    (stats : ℕ → Stat) (w : ℕ) :
    ((CalculateBound A P thr stats w).2 w).firstBound = (calcTriple A P thr stats w).1 ∧
    ((CalculateBound A P thr stats w).2 w).secondBound = (calcTriple A P thr stats w).2.1 ∧
    ((CalculateBound A P thr stats w).2 w).bound = (calcTriple A P thr stats w).2.2 := by
  unfold CalculateBound
  simp

/-- CalculateBound leaves every other node's statistics untouched. -/
theorem calcBound_stats_other (A : Arena) (P : SortPolicy) (thr : ℕ → ℚ)
    (stats : ℕ → Stat) (w n : ℕ) (hn : n ≠ w) :
    (CalculateBound A P thr stats w).2 n = stats n := by
  unfold CalculateBound
  simp [hn]

/-- The invariant holds in the reset state: everything stored is the
worst possible distance and whatever would be computed is at least as
tight. -/
theorem boundInv_init {P : SortPolicy} (L : Lawful P) (A : Arena) (thr0 : ℕ → ℚ) :
    BoundInv A P ⟨thr0, fun _ => worstStat P⟩ := by
  intro v
  have h := calcTriple_leq45 L A thr0 (fun _ => worstStat P) v
  have h4 : (match A.parent v with
      | some p => ((fun _ => worstStat P) p).firstBound
      | none => P.WorstDistance) = P.WorstDistance := by
    cases A.parent v <;> rfl
  have h5 : (match A.parent v with
      | some p => ((fun _ => worstStat P) p).secondBound
      | none => P.WorstDistance) = P.WorstDistance := by
    cases A.parent v <;> rfl
  have h1 := h.1
  rw [h4] at h1
  have h2 := h.2.1
  rw [h5] at h2
  exact ⟨h1, h2, L.leqTrans _ _ _ h.2.2 h2⟩

/-- One valid step preserves the invariant and only tightens every
node's stored statistics. -/
theorem boundInv_step {P : SortPolicy} (L : Lawful P) (A : Arena) (s : SState)
    (op : SearchStep)
    (hok : match op with
      | .tighten f => ∀ i, Leq P (f i) (s.thr i)
      | .updateBound _ => True)
    (hinv : BoundInv A P s) :
    BoundInv A P (applyStep A P s op) ∧
    ∀ v, statLeq P ((applyStep A P s op).stats v) (s.stats v) := by
  cases op with
  | tighten f =>
      constructor
      · intro v
        have hmono := calcTriple_mono L A s.thr f s.stats s.stats v hok
          (fun c => ⟨leqRefl L _, leqRefl L _⟩)
        have h0 := hinv v
        exact ⟨L.leqTrans _ _ _ hmono.1 h0.1, L.leqTrans _ _ _ hmono.2.1 h0.2.1,
          L.leqTrans _ _ _ hmono.2.2 h0.2.2⟩
      · intro v
        exact ⟨leqRefl L _, leqRefl L _, leqRefl L _⟩
  | updateBound w =>
      have hself := calcBound_stats_self A P s.thr s.stats w
      have hst : ∀ c, statLeq P ((CalculateBound A P s.thr s.stats w).2 c) (s.stats c) := by
        intro c
        by_cases hc : c = w
        · subst hc
          rw [statLeq, hself.1, hself.2.1, hself.2.2]
          exact hinv c
        · rw [calcBound_stats_other A P s.thr s.stats w c hc]
          exact ⟨leqRefl L _, leqRefl L _, leqRefl L _⟩
      constructor
      · intro v
        have hmono := calcTriple_mono L A s.thr s.thr s.stats
          ((CalculateBound A P s.thr s.stats w).2) v (fun i => leqRefl L _)
          (fun c => ⟨(hst c).1, (hst c).2.1⟩)
        by_cases hv : v = w
        · subst hv
          refine ⟨?_, ?_, ?_⟩
          · rw [show (applyStep A P s (SearchStep.updateBound v)).stats =
              (CalculateBound A P s.thr s.stats v).2 from rfl, hself.1]
            exact hmono.1
          · rw [show (applyStep A P s (SearchStep.updateBound v)).stats =
              (CalculateBound A P s.thr s.stats v).2 from rfl, hself.2.1]
            exact hmono.2.1
          · rw [show (applyStep A P s (SearchStep.updateBound v)).stats =
              (CalculateBound A P s.thr s.stats v).2 from rfl, hself.2.2]
            exact hmono.2.2
        · have hvs : (applyStep A P s (SearchStep.updateBound w)).stats v = s.stats v :=
            calcBound_stats_other A P s.thr s.stats w v hv
          have h0 := hinv v
          refine ⟨?_, ?_, ?_⟩
          · rw [hvs]; exact L.leqTrans _ _ _ hmono.1 h0.1
          · rw [hvs]; exact L.leqTrans _ _ _ hmono.2.1 h0.2.1
          · rw [hvs]; exact L.leqTrans _ _ _ hmono.2.2 h0.2.2
      · exact hst

/-- Splitting a run across an append. -/
theorem runSteps_append (A : Arena) (P : SortPolicy) :
    ∀ (l1 l2 : List SearchStep) (s : SState),
      runSteps A P s (l1 ++ l2) = runSteps A P (runSteps A P s l1) l2 := by
  intro l1
  induction l1 with
  | nil => intro l2 s; rfl
  | cons op ops ih => intro l2 s; exact ih l2 (applyStep A P s op)

/-- Validity of an appended run gives validity of both halves. -/
theorem stepsOk_append (A : Arena) (P : SortPolicy) :
    ∀ (l1 l2 : List SearchStep) (s : SState), stepsOk A P s (l1 ++ l2) →
      stepsOk A P s l1 ∧ stepsOk A P (runSteps A P s l1) l2 := by
  intro l1
  induction l1 with
  | nil => intro l2 s h; exact ⟨trivial, h⟩
  | cons op ops ih =>
      intro l2 s h
      obtain ⟨h1, h2⟩ := h
      obtain ⟨h3, h4⟩ := ih l2 (applyStep A P s op) h2
      exact ⟨⟨h1, h3⟩, h4⟩

/-- A valid run preserves the invariant and only tightens every node's
stored statistics. -/
theorem runSteps_mono {P : SortPolicy} (L : Lawful P) (A : Arena) :
    ∀ (ops : List SearchStep) (s : SState), stepsOk A P s ops → BoundInv A P s →
      BoundInv A P (runSteps A P s ops) ∧
      ∀ v, statLeq P ((runSteps A P s ops).stats v) (s.stats v) := by
  intro ops
  induction ops with
  | nil =>
      intro s _ hinv
      exact ⟨hinv, fun v => ⟨leqRefl L _, leqRefl L _, leqRefl L _⟩⟩
  | cons op ops2 ih =>
      intro s hok hinv
      obtain ⟨h1, h2⟩ := hok
      have hstep := boundInv_step L A s op h1 hinv
      have hrec := ih (applyStep A P s op) h2 hstep.1
      refine ⟨hrec.1, ?_⟩
      intro v
      have ha := hrec.2 v
      have hb := hstep.2 v
      exact ⟨L.leqTrans _ _ _ ha.1 hb.1, L.leqTrans _ _ _ ha.2.1 hb.2.1,
        L.leqTrans _ _ _ ha.2.2 hb.2.2⟩

/-- C9: within a single search invocation (bounds reset to the worst
possible distance, candidate-list thresholds only tightening between
calls), successive CalculateBound calls never loosen any node's stored
firstBound, secondBound or bound: after any further valid steps the
stored values are at least as tight as after any earlier prefix. -/
theorem C9_boundMonotone {P : SortPolicy} (L : Lawful P) (A : Arena) (thr0 : ℕ → ℚ)
    (ops1 ops2 : List SearchStep)
    (hok : stepsOk A P ⟨thr0, fun _ => worstStat P⟩ (ops1 ++ ops2)) :
    ∀ v, statLeq P ((runSteps A P ⟨thr0, fun _ => worstStat P⟩ (ops1 ++ ops2)).stats v)
      ((runSteps A P ⟨thr0, fun _ => worstStat P⟩ ops1).stats v) := by
  obtain ⟨hok1, hok2⟩ := stepsOk_append A P ops1 ops2 _ hok
  have h1 := runSteps_mono L A ops1 _ hok1 (boundInv_init L A thr0)
  have h2 := runSteps_mono L A ops2 _ hok2 h1.1
  intro v
  rw [runSteps_append]
  exact h2.2 v

/-- Witness for C9: on the concrete two-node tree, a bound update, a
threshold tightening and a second bound update leave node 0's stored
statistics at least as tight as after the first update alone. -/
theorem C9_boundMonotone_witness :
    statLeq nnPolicy
      ((runSteps arena9 nnPolicy ⟨fun _ => DBL_MAX, fun _ => worstStat nnPolicy⟩
        ([SearchStep.updateBound 0] ++
          [SearchStep.tighten thr9, SearchStep.updateBound 0])).stats 0)
      ((runSteps arena9 nnPolicy ⟨fun _ => DBL_MAX, fun _ => worstStat nnPolicy⟩
        [SearchStep.updateBound 0]).stats 0) := by
  refine C9_boundMonotone nnLawful arena9 (fun _ => DBL_MAX)
    [SearchStep.updateBound 0] [SearchStep.tighten thr9, SearchStep.updateBound 0]
    ⟨trivial, ?_, trivial, trivial⟩ 0
  intro i
  by_cases h : i = 0
  · subst h
    show nnPolicy.IsBetter DBL_MAX 3 = false
    decide
  · show nnPolicy.IsBetter DBL_MAX (thr9 i) = false
    simp only [thr9, h, if_false]
    decide

/-- When the parents of self-children carry a cached last-compared
node, all four cache lookups of the node-to-node Score complete
without dereferencing a null pointer. -/
theorem nodeBaseCase_isSome (A : Arena) (stats : ℕ → Stat) (qn rn : ℕ)
    (hq : ∀ p, A.parent qn = some p → point0 A p = point0 A qn →
      (stats p).lastDistanceNode ≠ none)
    (hr : ∀ p, A.parent rn = some p → point0 A p = point0 A rn →
      (stats p).lastDistanceNode ≠ none) :
    (nodeBaseCase A stats qn rn).isSome = true := by
  cases hpq : A.parent qn with
  | none =>
      cases hpr : A.parent rn with
      | none => simp [nodeBaseCase, hpq, hpr]
      | some p =>
          by_cases hpe : point0 A p = point0 A rn
          · cases hld : (stats p).lastDistanceNode with
            | none => exact absurd hld (hr p hpr hpe)
            | some x => simp [nodeBaseCase, hpq, hpr, hpe, hld]
          · simp [nodeBaseCase, hpq, hpr, hpe]
  | some p =>
      by_cases hpe : point0 A p = point0 A qn
      · cases hld : (stats p).lastDistanceNode with
        | none => exact absurd hld (hq p hpq hpe)
        | some x =>
            cases hpr : A.parent rn with
            | none => simp [nodeBaseCase, hpq, hpr, hpe, hld]
            | some p2 =>
                by_cases hpe2 : point0 A p2 = point0 A rn
                · cases hld2 : (stats p2).lastDistanceNode with
                  | none => exact absurd hld2 (hr p2 hpr hpe2)
                  | some y => simp [nodeBaseCase, hpq, hpr, hpe, hld, hpe2, hld2]
                · simp [nodeBaseCase, hpq, hpr, hpe, hld, hpe2]
      · cases hpr : A.parent rn with
        | none => simp [nodeBaseCase, hpq, hpe, hpr]
        | some p2 =>
            by_cases hpe2 : point0 A p2 = point0 A rn
            · cases hld2 : (stats p2).lastDistanceNode with
              | none => exact absurd hld2 (hr p2 hpr hpe2)
              | some y => simp [nodeBaseCase, hpq, hpe, hpr, hpe2, hld2]
            · simp [nodeBaseCase, hpq, hpe, hpr, hpe2]

/-- C10 as stated is false: on a fresh search state (all cached
last-compared nodes null), calling the node-to-node Score with a
query node that is a self-child of its parent reaches the third cache
lookup, which dereferences the parent's null LastDistanceNode with no
null check — the embedded Score signals the null dereference by
returning none.  The spec makes no assumption about the traversal
driver's visitation order, so this fresh state is reachable. -/
theorem C10_counterexample :
    arena10.parent 1 = some 0 ∧
    point0 arena10 0 = point0 arena10 1 ∧
    (stats1 0).lastDistanceNode = none ∧
    (ScoreNodes ⟨true, true⟩ cM1 nnPolicy bntn0 arena10 st1 stats1 1 2).isSome = false := by
  refine ⟨by decide, by decide, ?_, ?_⟩
  · simp [stats1, worstStat]
  · simp only [ScoreNodes, nodeBaseCase, point0, arena10, stats1, worstStat]
    norm_num

/-- C10 amended: the self-child branches of the node-to-node Score
dereference the parent's cached LastDistanceNode unconditionally; the
dereference is safe exactly on states where every node that is a
self-child of its parent has that parent's cache non-null (as when a
Score involving the parent has already run), and a fresh state with
null caches reaches the dereference. -/
theorem C10_amended (T : Traits) (metric : ℕ → ℕ → ℚ) (P : SortPolicy)
    (bntn : ℕ → ℕ → ℚ) (A : Arena) (st : Rules) (stats : ℕ → Stat) (qn rn : ℕ)
    (hq : ∀ p, A.parent qn = some p → point0 A p = point0 A qn →
      (stats p).lastDistanceNode ≠ none)
    (hr : ∀ p, A.parent rn = some p → point0 A p = point0 A rn →
      (stats p).lastDistanceNode ≠ none) :
    (ScoreNodes T metric P bntn A st stats qn rn).isSome = true := by
  unfold ScoreNodes
  by_cases hc : T.FirstPointIsCentroid = true
  · rw [if_pos hc]
    obtain ⟨c, hcc⟩ := Option.isSome_iff_exists.mp (nodeBaseCase_isSome A stats qn rn hq hr)
    rw [hcc]
    rfl
  · rw [if_neg hc]
    rfl

/-- Witness for C10 amended: with the parent's cache set to node 2,
the self-child Score completes. -/
theorem C10_amended_witness :
    (ScoreNodes ⟨true, true⟩ cM1 nnPolicy bntn0 arena10 st1 stats10 1 2).isSome = true := by
  refine C10_amended ⟨true, true⟩ cM1 nnPolicy bntn0 arena10 st1 stats10 1 2 ?_ ?_
  · intro p hp hpt
    have hp0 : p = 0 := by
      simp [arena10] at hp
      omega
    subst hp0
    simp [stats10]
  · intro p hp hpt
    simp [arena10] at hp

/-- The nearest-neighbor IsBetter in propositional form. -/
theorem nn_isBetter_true_iff (a b : ℚ) : nnPolicy.IsBetter a b = true ↔ a < b := by
  simp [nnPolicy]

/-- The negated nearest-neighbor IsBetter in propositional form. -/
theorem nn_isBetter_false_iff (a b : ℚ) : nnPolicy.IsBetter a b = false ↔ b ≤ a := by
  simp [nnPolicy]

/-- The nearest-neighbor CombineBest subtracts. -/
theorem nn_combineBest (a b : ℚ) : nnPolicy.CombineBest a b = a - b := rfl

/-- The distance BaseCase returns: the metric value, zero for an
elided self match, or the memoized value. -/
theorem baseCase_fst_cases (metric : ℕ → ℕ → ℚ) (P : SortPolicy) (st : Rules) (q r : ℕ) :
    (BaseCase metric P st q r).1 = metric q r ∨
    (st.sameSet = true ∧ q = r ∧ (BaseCase metric P st q r).1 = 0) ∨
    (st.lastQueryIndex = q ∧ st.lastReferenceIndex = r ∧
      (BaseCase metric P st q r).1 = st.lastBaseCase) := by
  unfold BaseCase
  by_cases h1 : st.sameSet = true ∧ q = r
  · rw [if_pos h1]
    exact Or.inr (Or.inl ⟨h1.1, h1.2, rfl⟩)
  · rw [if_neg h1]
    by_cases h2 : st.lastQueryIndex = q ∧ st.lastReferenceIndex = r
    · rw [if_pos h2]
      exact Or.inr (Or.inr ⟨h2.1, h2.2, rfl⟩)
    · rw [if_neg h2]
      exact Or.inl rfl

/-- Shape of the point-to-node Score on centroid trees with self
children: a base case is taken from the parent's cache (when the node
is a self-child) or from BaseCase, it is combined with the node's
radius, and the result is compared against the query's current worst
candidate in the post-base-case state. -/
theorem scorePointNode_centroid (metric : ℕ → ℕ → ℚ) (P : SortPolicy)
    (bptn : ℕ → PNode → ℚ) (st : Rules) (q : ℕ) (n : PNode) (junk : ℚ) :
    ∃ bcSt : ℚ × Rules,
      ((∃ pi, n.parentInfo = some pi ∧ n.point0 = pi.1 ∧ bcSt = (pi.2, st)) ∨
        bcSt = BaseCase metric P st q n.point0) ∧
      ScorePointNode ⟨true, true⟩ metric P bptn st q n junk =
        (if P.IsBetter (P.CombineBest bcSt.1 n.fdd)
            ((bcSt.2.distances q).getD (bcSt.2.k - 1) 0) = true
          then P.CombineBest bcSt.1 n.fdd else DBL_MAX,
         bcSt.2, { n with lastDistance := bcSt.1 }) := by
  cases hpi : n.parentInfo with
  | none =>
      refine ⟨BaseCase metric P st q n.point0, Or.inr rfl, ?_⟩
      simp [ScorePointNode, hpi]
  | some pi =>
      by_cases hp0 : n.point0 = pi.1
      · refine ⟨(pi.2, st), Or.inl ⟨pi, rfl, hp0, rfl⟩, ?_⟩
        simp [ScorePointNode, hpi, hp0]
      · refine ⟨BaseCase metric P st q n.point0, Or.inr rfl, ?_⟩
        simp [ScorePointNode, hpi, hp0]

/-- Arithmetic core of node-to-node prune soundness for the
nearest-neighbor policy: if the score built from a sound base case and
the two radii does not beat the bound B, no pair of subtree points can
beat B either. -/
theorem nn_node_prune_core (bcv fq fr B mqr mqp mrr mpr : ℚ)
    (hbc : bcv ≤ mqr) (hp : mqp ≤ fq) (hr : mrr ≤ fr)
    (htri : mqr ≤ mpr + mqp + mrr)
    (hprune : (if nnPolicy.IsBetter (nnPolicy.CombineBest bcv (fq + fr)) B
      then nnPolicy.CombineBest bcv (fq + fr) else DBL_MAX) = DBL_MAX)
    (hB : B ≤ DBL_MAX) : ¬(mpr < B) := by
  split at hprune
  · exfalso
    next h =>
      have hlt := (nn_isBetter_true_iff _ _).mp h
      rw [hprune] at hlt
      exact absurd hlt (not_lt.mpr hB)
  · next h =>
      have hge := (nn_isBetter_false_iff _ _).mp (eq_false_of_ne_true h)
      rw [nn_combineBest] at hge
      intro hlt
      linarith

/-- C1 amended.  Part one: on centroid trees with self children, when
the point-to-node Score prunes (returns DBL_MAX), no point of the
reference node's subtree — any point within the node's
furthest-descendant-distance of its first point, under a metric
satisfying the triangle inequality, with all caches sound — is better
than the query's current worst accepted candidate.  Part two: when the
node-to-node Score prunes, no point of the reference subtree is better,
for any query point of the query subtree, than the aggregate bound
CalculateBound stored for the query node (the bound the code compares
against; it need not dominate each descendant's current worst
candidate, which is why the original claim fails). -/
theorem C1_amended :
    (∀ (metric : ℕ → ℕ → ℚ) (bptn : ℕ → PNode → ℚ) (st : Rules) (q : ℕ) (n : PNode)
        (junk : ℚ) (D : List ℕ),
      (∀ p ∈ D, metric n.point0 p ≤ n.fdd) →
      (∀ p ∈ D, metric q n.point0 ≤ metric q p + metric n.point0 p) →
      (∀ pi, n.parentInfo = some pi → n.point0 = pi.1 → pi.2 ≤ metric q n.point0) →
      (st.lastQueryIndex = q → st.lastReferenceIndex = n.point0 →
        st.lastBaseCase ≤ metric q n.point0) →
      (st.sameSet = true → q = n.point0 → (0 : ℚ) ≤ metric q n.point0) →
      (ScorePointNode ⟨true, true⟩ metric nnPolicy bptn st q n junk).1 = DBL_MAX →
      ((ScorePointNode ⟨true, true⟩ metric nnPolicy bptn st q n junk).2.1.distances q).getD
        ((ScorePointNode ⟨true, true⟩ metric nnPolicy bptn st q n junk).2.1.k - 1) 0 ≤
        DBL_MAX →
      ∀ p ∈ D, ¬(metric q p <
        ((ScorePointNode ⟨true, true⟩ metric nnPolicy bptn st q n junk).2.1.distances q).getD
          ((ScorePointNode ⟨true, true⟩ metric nnPolicy bptn st q n junk).2.1.k - 1) 0)) ∧
    (∀ (metric : ℕ → ℕ → ℚ) (bntn : ℕ → ℕ → ℚ) (A : Arena) (st : Rules)
        (stats : ℕ → Stat) (qn rn : ℕ) (Dq Dr : List ℕ) (out : ℚ × ℚ × Rules × (ℕ → Stat)),
      (∀ p ∈ Dq, metric (point0 A qn) p ≤ A.fdd qn) →
      (∀ r ∈ Dr, metric (point0 A rn) r ≤ A.fdd rn) →
      (∀ p ∈ Dq, ∀ r ∈ Dr, metric (point0 A qn) (point0 A rn) ≤
        metric p r + metric (point0 A qn) p + metric (point0 A rn) r) →
      (∀ bc, nodeBaseCase A stats qn rn = some (some bc) →
        bc ≤ metric (point0 A qn) (point0 A rn)) →
      (st.lastQueryIndex = point0 A qn → st.lastReferenceIndex = point0 A rn →
        st.lastBaseCase ≤ metric (point0 A qn) (point0 A rn)) →
      (st.sameSet = true → point0 A qn = point0 A rn →
        (0 : ℚ) ≤ metric (point0 A qn) (point0 A rn)) →
      ScoreNodes ⟨true, true⟩ metric nnPolicy bntn A st stats qn rn = some out →
      out.1 = DBL_MAX →
      out.2.1 ≤ DBL_MAX →
      ∀ p ∈ Dq, ∀ r ∈ Dr, ¬(metric p r < out.2.1)) := by
  constructor
  · intro metric bptn st q n junk D hrad htri hpar hmemo hself hprune hthr p hp
    obtain ⟨bcSt, hcase, hEq⟩ := scorePointNode_centroid metric nnPolicy bptn st q n junk
    have hbc : bcSt.1 ≤ metric q n.point0 := by
      rcases hcase with ⟨pi, hpi, hp0, hb⟩ | hb
      · rw [hb]
        exact hpar pi hpi hp0
      · rw [hb]
        rcases baseCase_fst_cases metric nnPolicy st q n.point0 with h | ⟨hs, hqr, h⟩ |
          ⟨h1, h2, h⟩
        · rw [h]
        · rw [h]
          exact hself hs hqr
        · rw [h]
          exact hmemo h1 h2
    rw [hEq] at hprune hthr ⊢
    dsimp only at hprune hthr ⊢
    by_cases hcond : nnPolicy.IsBetter (nnPolicy.CombineBest bcSt.1 n.fdd)
        ((bcSt.2.distances q).getD (bcSt.2.k - 1) 0) = true
    · rw [if_pos hcond] at hprune
      exfalso
      have hlt := (nn_isBetter_true_iff _ _).mp hcond
      rw [hprune] at hlt
      exact absurd hlt (not_lt.mpr hthr)
    · have hge := (nn_isBetter_false_iff _ _).mp (eq_false_of_ne_true hcond)
      rw [nn_combineBest] at hge
      intro hlt
      have h1 := hrad p hp
      have h2 := htri p hp
      linarith
  · intro metric bntn A st stats qn rn Dq Dr out hradQ hradR htri hcache hmemo hself hSN
      hprune hB p hp r hr
    simp only [ScoreNodes] at hSN
    cases hnbc : nodeBaseCase A stats qn rn with
    | none =>
        rw [hnbc] at hSN
        cases hSN
    | some cached =>
        rw [hnbc] at hSN
        cases cached with
        | some bc =>
            dsimp only at hSN
            have hbcv : bc ≤ metric (point0 A qn) (point0 A rn) :=
              hcache bc (by rw [hnbc])
            have hX := Option.some.inj hSN
            rw [← hX] at hprune hB ⊢
            dsimp only at hprune hB ⊢
            exact nn_node_prune_core bc (A.fdd qn) (A.fdd rn) _
              (metric (point0 A qn) (point0 A rn)) (metric (point0 A qn) p)
              (metric (point0 A rn) r) (metric p r) hbcv (hradQ p hp) (hradR r hr)
              (htri p hp r hr) hprune hB
        | none =>
            dsimp only at hSN
            have hbcv : (BaseCase metric nnPolicy st (point0 A qn) (point0 A rn)).1 ≤
                metric (point0 A qn) (point0 A rn) := by
              rcases baseCase_fst_cases metric nnPolicy st (point0 A qn) (point0 A rn) with
                h | ⟨hs, hqr, h⟩ | ⟨h1, h2, h⟩
              · rw [h]
              · rw [h]
                exact hself hs hqr
              · rw [h]
                exact hmemo h1 h2
            have hX := Option.some.inj hSN
            rw [← hX] at hprune hB ⊢
            dsimp only at hprune hB ⊢
            exact nn_node_prune_core _ (A.fdd qn) (A.fdd rn) _
              (metric (point0 A qn) (point0 A rn)) (metric (point0 A qn) p)
              (metric (point0 A rn) r) (metric p r) hbcv (hradQ p hp) (hradR r hr)
              (htri p hp r hr) hprune hB

/-- C1 as stated is false for the node-to-node Score: on the concrete
two-level query tree (root 0 owning point 0 with threshold 5, child 1
owning point 1 still at the sentinel threshold) and reference node 2
owning point 2, with a genuine metric (symmetric, non-negative, all
triangle inequalities hold) and true radius bounds, the node-to-node
Score prunes (score DBL_MAX, aggregate bound 7), yet reference point 2
at distance 39 is strictly better than query point 1's current worst
accepted candidate DBL_MAX. -/
theorem C1_counterexample :
    (ScoreNodes ⟨true, true⟩ cM1 nnPolicy bntn0 arena1 st1 stats1 0 2).map
      (fun x => x.1) = some DBL_MAX ∧
    (∀ a ∈ [0, 1, 2], ∀ b ∈ [0, 1, 2], ∀ c ∈ [0, 1, 2], cM1 a c ≤ cM1 a b + cM1 b c) ∧
    (∀ a ∈ [0, 1, 2], ∀ b ∈ [0, 1, 2], cM1 a b = cM1 b a ∧ 0 ≤ cM1 a b) ∧
    (∀ a ∈ [0, 1, 2], cM1 a a = 0) ∧
    (∀ p ∈ [0, 1], cM1 (point0 arena1 0) p ≤ arena1.fdd 0) ∧
    (∀ r ∈ [2], cM1 (point0 arena1 2) r ≤ arena1.fdd 2) ∧
    arena1.children 0 = [1] ∧ arena1.points 1 = [1] ∧
    cM1 1 2 < thresholdFun st1 1 := by
  refine ⟨?_, ?_, ?_, ?_, ?_, ?_, by decide, by decide, ?_⟩
  · simp only [ScoreNodes, nodeBaseCase, BaseCase, baseCaseRecompute, InsertNeighbor,
      CalculateBound, calcTriple, thresholdFun, point0, nnPolicy, cM1, arena1, st1, stats1,
      worstStat, betterOf, worseOf, sortDistanceFirst, bntn0, Option.map]
    norm_num [DBL_MAX]
  · with_unfolding_all decide
  · with_unfolding_all decide
  · with_unfolding_all decide
  · with_unfolding_all decide
  · with_unfolding_all decide
  · show cM1 1 2 < (st1.distances 1).getD (st1.k - 1) 0
    with_unfolding_all decide

/-- Witness for C1 amended: both halves applied to the concrete data
of the counterexample.  For the point-to-node half, query 0 against a
node at point 2 with radius 0 is pruned (distance 40 against threshold
5) and indeed point 2 is not better than the threshold; for the
node-to-node half, the pruned pair (query node 0, reference node 2)
leaves reference point 2 no better than the aggregate bound 7 for any
query descendant. -/
theorem C1_amended_witness :
    (¬(cM1 0 2 <
      ((ScorePointNode ⟨true, true⟩ cM1 nnPolicy bptn0 st1 0 nC1a 0).2.1.distances 0).getD
        ((ScorePointNode ⟨true, true⟩ cM1 nnPolicy bptn0 st1 0 nC1a 0).2.1.k - 1) 0)) ∧
    ¬(cM1 1 2 <
      ((ScoreNodes ⟨true, true⟩ cM1 nnPolicy bntn0 arena1 st1 stats1 0 2).map
        (fun x => x.2.1)).getD 0) := by
  constructor
  · refine C1_amended.1 cM1 bptn0 st1 0 nC1a 0 [2] ?_ ?_ ?_ ?_ ?_ ?_ ?_ 2 (by decide)
    · intro p hp
      have hp2 : p = 2 := by simpa using hp
      subst hp2
      with_unfolding_all decide
    · intro p hp
      have hp2 : p = 2 := by simpa using hp
      subst hp2
      with_unfolding_all decide
    · intro pi hpi
      simp [nC1a] at hpi
    · intro h1
      exact absurd h1 (by decide)
    · intro h1 h2
      exact absurd h1 (by decide)
    · simp only [ScorePointNode, BaseCase, baseCaseRecompute, InsertNeighbor, thresholdFun,
        nnPolicy, cM1, st1, nC1a, sortDistanceFirst, bptn0]
      norm_num [DBL_MAX]
    · simp only [ScorePointNode, BaseCase, baseCaseRecompute, InsertNeighbor, thresholdFun,
        nnPolicy, cM1, st1, nC1a, sortDistanceFirst, bptn0]
      norm_num [DBL_MAX]
  · have hmap2 : (ScoreNodes ⟨true, true⟩ cM1 nnPolicy bntn0 arena1 st1 stats1 0 2).map
        (fun x => x.2.1) = some 7 := by
      simp only [ScoreNodes, nodeBaseCase, BaseCase, baseCaseRecompute, InsertNeighbor,
        CalculateBound, calcTriple, thresholdFun, point0, nnPolicy, cM1, arena1, st1,
        stats1, worstStat, betterOf, worseOf, sortDistanceFirst, bntn0, Option.map]
      norm_num [DBL_MAX]
    cases hSN : ScoreNodes ⟨true, true⟩ cM1 nnPolicy bntn0 arena1 st1 stats1 0 2 with
    | none => rw [hSN] at hmap2; cases hmap2
    | some out =>
        rw [hSN] at hmap2
        have hout21 : out.2.1 = 7 := by simpa using hmap2
        have hmap1 : (ScoreNodes ⟨true, true⟩ cM1 nnPolicy bntn0 arena1 st1 stats1 0 2).map
            (fun x => x.1) = some DBL_MAX := by
          simp only [ScoreNodes, nodeBaseCase, BaseCase, baseCaseRecompute, InsertNeighbor,
            CalculateBound, calcTriple, thresholdFun, point0, nnPolicy, cM1, arena1, st1,
            stats1, worstStat, betterOf, worseOf, sortDistanceFirst, bntn0, Option.map]
          norm_num [DBL_MAX]
        rw [hSN] at hmap1
        have hout1 : out.1 = DBL_MAX := by simpa using hmap1
        have hcore := C1_amended.2 cM1 bntn0 arena1 st1 stats1 0 2 [0, 1] [2] out ?_ ?_ ?_
          ?_ ?_ ?_ hSN hout1 ?_ 1 (by decide) 2 (by decide)
        · simpa [hout21] using hcore
        · intro p hp
          rcases (by simpa using hp : p = 0 ∨ p = 1) with h | h <;> subst h <;>
            with_unfolding_all decide
        · intro r hr
          have hr2 : r = 2 := by simpa using hr
          subst hr2
          with_unfolding_all decide
        · intro p hp r hr
          have hr2 : r = 2 := by simpa using hr
          subst hr2
          rcases (by simpa using hp : p = 0 ∨ p = 1) with h | h <;> subst h <;>
            with_unfolding_all decide
        · intro bc hbc
          rw [show nodeBaseCase arena1 stats1 0 2 = some none by decide] at hbc
          cases hbc
        · intro h1 h2
          exact absurd h1 (by decide)
        · intro h1 h2
          exact absurd h1 (by decide)
        · rw [hout21]
          decide

end NNRules
